import Mathlib

/-!
SimpleNeuralNetwork: a verification development.

A shallow embedding of `include/Math.hpp`, `include/Random.hpp` and the training
program `src/SimpleNeuralNetwork.cpp`, followed by theorems about them.

Conventions of the embedding.

* `double` is read as a real number. The linear algebra is written over an arbitrary
  scalar type, so that it can also be evaluated on integers and rationals; the
  functions that need `exp`, `log`, `tanh`, `sqrt` or a division are over `ℝ`.
* `std::vector<double>` is a `List`, `std::vector<std::vector<double>>` a list of rows.
* A C++ call either returns a value or fails; the ways of failing that the program has
  are the constructors of `Failure`. Element access is checked in the embedding, so
  that an access outside a container shows as a failure.
* Loops over an index are `for_loop`s over the variables they assign; printing is left
  out, the evaluation of the print condition is kept.
* `std::mt19937` and `std::uniform_real_distribution` are a parameter (`EngineLib`).
-/

namespace SimpleNeuralNetwork

/-! ## Outcomes of a call -/

/-- The ways in which a call of the program can fail. -/
inductive Failure where
  /-- A `std::invalid_argument` was thrown (dimension mismatch, malformed number). -/
  | invalid_argument
  /-- A `std::logic_error` was thrown (random generator used before `Init`). -/
  | logic_error
  /-- The call `std::terminate` was made: an exception left the element function of an
  algorithm that runs under an execution policy. -/
  | terminate
  /-- An element outside a container was accessed (`operator[]` or an iterator past
  the end): the behaviour is undefined. -/
  | undefined
  /-- An integer remainder was taken with divisor zero: the behaviour is undefined. -/
  | division_by_zero
  deriving DecidableEq, Repr

deriving instance DecidableEq for Except

/-- Unchecked element access `xs[i]` of a `std::vector`. -/
def at_index {β : Type} (xs : List β) (i : Nat) : Except Failure β :=
  match xs[i]? with
  | some x => .ok x
  | none => .error .undefined

/-- What becomes of the result of an element function inside an algorithm called with
an execution policy (`std::execution::par_unseq`): an exception that leaves the
element function ends the program through `std::terminate` (C++17
[algorithms.parallel.exceptions] and [execpol.parunseq]); it does not reach the caller
of the algorithm. -/
def under_policy {β : Type} : Except Failure β → Except Failure β
  | .ok b => .ok b
  | .error .undefined => .error .undefined
  | .error .division_by_zero => .error .division_by_zero
  | .error _ => .error .terminate

/-- The unary `std::transform(policy, first, last, out, op)`. -/
def transform1 {β γ : Type} (op : β → Except Failure γ) : List β → Except Failure (List γ)
  | [] => .ok []
  | a :: as =>
    match under_policy (op a) with
    | .error e => .error e
    | .ok c =>
      match transform1 op as with
      | .error e => .error e
      | .ok cs => .ok (c :: cs)

/-- The binary `std::transform(policy, first1, last1, first2, out, op)`: it walks the
first range and reads the second one at the same positions. -/
def transform2 {β γ : Type} (op : β → β → Except Failure γ) :
    List β → List β → Except Failure (List γ)
  | [], _ => .ok []
  | _ :: _, [] => .error .undefined
  | a :: as, b :: bs =>
    match under_policy (op a b) with
    | .error e => .error e
    | .ok c =>
      match transform2 op as bs with
      | .error e => .error e
      | .ok cs => .ok (c :: cs)

/-- The call `std::inner_product(first1, last1, first2, init)`: a left-to-right
accumulation `init + a0*b0 + a1*b1 + ...` over the first range. -/
def inner_product {α : Type} [Add α] [Mul α] : List α → List α → α → Except Failure α
  | [], _, init => .ok init
  | _ :: _, [], _ => .error .undefined
  | a :: as, b :: bs, init => inner_product as bs (init + a * b)

/-! ## Math.hpp, region linear_algebra -/

section LinearAlgebra

variable {α : Type} [Add α] [Sub α] [Mul α] [Zero α]

/-- Vector sum, `operator+(vector, vector)`, Math.hpp lines 22-34. -/
def vec_add (vec1 vec2 : List α) : Except Failure (List α) :=
  if vec1.length ≠ vec2.length then .error .invalid_argument
  else transform2 (fun a b => .ok (a + b)) vec1 vec2

/-- Vector difference, `operator-(vector, vector)`, Math.hpp lines 36-48. -/
def vec_sub (vec1 vec2 : List α) : Except Failure (List α) :=
  if vec1.length ≠ vec2.length then .error .invalid_argument
  else transform2 (fun a b => .ok (a - b)) vec1 vec2

/-- Vector times scalar, `operator*(vector, double)`, Math.hpp lines 50-59. -/
def vec_scale (vec : List α) (num : α) : Except Failure (List α) :=
  transform1 (fun a => .ok (a * num)) vec

/-- Dot product, `operator*(vector, vector)`, Math.hpp lines 61-64. -/
def vec_dot (vec1 vec2 : List α) : Except Failure α :=
  if vec1.length ≠ vec2.length then .error .invalid_argument
  else inner_product vec1 vec2 0

/-- Matrix sum, `operator+(matrix, matrix)`, Math.hpp lines 66-78. The result is
allocated from `mtx1[0].size()`, which reads row 0 of the first matrix. -/
def mtx_add (mtx1 mtx2 : List (List α)) : Except Failure (List (List α)) :=
  if mtx1.length ≠ mtx2.length then .error .invalid_argument
  else
    match mtx1 with
    | [] => .error .undefined
    | _ :: _ => transform2 (fun a b => vec_add a b) mtx1 mtx2

/-- Matrix difference, `operator-(matrix, matrix)`, Math.hpp lines 80-92. -/
def mtx_sub (mtx1 mtx2 : List (List α)) : Except Failure (List (List α)) :=
  if mtx1.length ≠ mtx2.length then .error .invalid_argument
  else
    match mtx1 with
    | [] => .error .undefined
    | _ :: _ => transform2 (fun a b => vec_sub a b) mtx1 mtx2

/-- Matrix times scalar, `operator*(matrix, double)`, Math.hpp lines 94-104. -/
def mtx_scale (mtx : List (List α)) (num : α) : Except Failure (List (List α)) :=
  match mtx with
  | [] => .error .undefined
  | _ :: _ => transform1 (fun a => vec_scale a num) mtx

/-- The loop of `operator*(matrix, vector)`: `res[i] = inner_product(mtx[i], vec)`. -/
def mtx_vec_rows (vec : List α) : List (List α) → Except Failure (List α)
  | [] => .ok []
  | row :: rows =>
    match inner_product row vec 0 with
    | .error e => .error e
    | .ok d =>
      match mtx_vec_rows vec rows with
      | .error e => .error e
      | .ok ds => .ok (d :: ds)

/-- Matrix times vector, `operator*(matrix, vector)`, Math.hpp lines 106-116. Only
the length of row 0 is compared with the length of the vector. -/
def mtx_vec_mul (mtx : List (List α)) (vec : List α) : Except Failure (List α) :=
  match mtx with
  | [] => .error .undefined
  | row0 :: _ =>
    if row0.length ≠ vec.length then .error .invalid_argument
    else mtx_vec_rows vec mtx

end LinearAlgebra

/-! ## Math.hpp, region neural_network -/

/-- The outer product of `weights_gradient`, Math.hpp lines 162-172:
`res[i][j] = delt[i] * inpt[j]`. -/
def weights_gradient {α : Type} [Mul α] (delt inpt : List α) : List (List α) :=
  delt.map (fun d => inpt.map (fun x => d * x))

noncomputable section Reals

/-- The constant `EPS`, Math.hpp line 20. -/
def EPS : ℝ := 1e-12

/-- The function `sigmoid`, Math.hpp lines 121-123. -/
def sigmoid (x : ℝ) : ℝ := 1 / (1 + Real.exp (-x))

/-- The function `sigmoid_derivative`, Math.hpp lines 125-128. -/
def sigmoid_derivative (x : ℝ) : ℝ := sigmoid x * (1 - sigmoid x)

/-- The function `relu`, Math.hpp lines 130-132. -/
def relu (x : ℝ) : ℝ := max 0 x

/-- The function `relu_derivative`, Math.hpp lines 134-136. -/
def relu_derivative (x : ℝ) : ℝ := if x > 0 then 1 else 0

/-- The function `tanh`, Math.hpp line 138. -/
def tanh (x : ℝ) : ℝ := Real.tanh x

/-- The function `tanh_derivative`, Math.hpp lines 140-143. -/
def tanh_derivative (x : ℝ) : ℝ := 1 - Real.tanh x * Real.tanh x

/-- The call `std::clamp(v, lo, hi)`: `lo` when `v < lo`, `hi` when `hi < v`, else `v`. -/
def clamp (v lo hi : ℝ) : ℝ := if v < lo then lo else if hi < v then hi else v

/-- The function `bce`, Math.hpp lines 145-148. -/
def bce (answ pred : ℝ) : ℝ :=
  -(answ * Real.log (clamp pred EPS (1 - EPS))
      + (1 - answ) * Real.log (1 - clamp pred EPS (1 - EPS)))

/-- The function `bce_with_logits_loss`, Math.hpp lines 150-152. -/
def bce_with_logits_loss (logit answ : ℝ) : ℝ :=
  max logit 0 - logit * answ + Real.log (1 + Real.exp (-|logit|))

/-- The function `bce_with_logits_loss_delta`, Math.hpp lines 154-156. -/
def bce_with_logits_loss_delta (logit answ : ℝ) : ℝ := sigmoid logit - answ

/-- The function `bce_delta`, Math.hpp lines 158-160. -/
def bce_delta (answ pred : ℝ) : ℝ := pred - answ

/-- The function `xavier_limit`, Math.hpp lines 174-176. -/
def xavier_limit (fan_in fan_out : ℝ) : ℝ := Real.sqrt (6 / (fan_in + fan_out))

end Reals

/-! ## Random.hpp -/

/-- The part of the standard library that `Random` stands on: the engine
`std::mt19937` (its default state, its state after `seed(s)`) and a draw of
`std::uniform_real_distribution<double>(min, max)` from it, which yields a number and
the next engine state. -/
structure EngineLib (E : Type) where
  /-- The default-constructed engine. -/
  fresh : E
  /-- The engine after `engine.seed(s)`. -/
  seeded : Int → E
  /-- One draw `dist(engine)` with `dist(min, max)`. -/
  draw : E → ℝ → ℝ → ℝ × E

/-- The static members of class `Random`, Random.hpp lines 14-16. -/
structure Random (E : Type) where
  seed : Int
  isInitialized : Bool
  engine : E

/-- The static state at program start: `seed = 0`, `isInitialized = false`. -/
def Random.start {E : Type} (lib : EngineLib E) : Random E :=
  { seed := 0, isInitialized := false, engine := lib.fresh }

/-- The method `Random::Init`, Random.hpp lines 26-32. -/
def Random.Init {E : Type} (lib : EngineLib E) (initSeed : Int) (r : Random E) : Random E :=
  if !r.isInitialized then
    { seed := initSeed, isInitialized := true, engine := lib.seeded initSeed }
  else r

/-- The method `Random::Double`, Random.hpp lines 37-44. -/
def Random.Double {E : Type} (lib : EngineLib E) (min max : ℝ) (r : Random E) :
    Except Failure (ℝ × Random E) :=
  if !r.isInitialized then .error .logic_error
  else .ok ((lib.draw r.engine min max).1, { r with engine := (lib.draw r.engine min max).2 })

/-! ## SimpleNeuralNetwork.cpp: containers and loops -/

/-- A counted loop `for (i = first; i < first + count; ++i) body(i)` over a state. -/
def for_loop {σ : Type} (body : Nat → σ → Except Failure σ) : Nat → Nat → σ → Except Failure σ
  | _, 0, s => .ok s
  | first, count + 1, s =>
    match body first s with
    | .error e => .error e
    | .ok s1 => for_loop body (first + 1) count s1

/-- The assignment `xs[i] = v`. -/
def assign {β : Type} (xs : List β) (i : Nat) (v : β) : Except Failure (List β) :=
  if i < xs.length then .ok (xs.set i v) else .error .undefined

/-- The read `m[i][j]`. -/
def at_index2 {β : Type} (m : List (List β)) (i j : Nat) : Except Failure β :=
  match at_index m i with
  | .error e => .error e
  | .ok row => at_index row j

/-- The assignment `m[i][j] = v`. -/
def assign2 {β : Type} (m : List (List β)) (i j : Nat) (v : β) :
    Except Failure (List (List β)) :=
  match at_index m i with
  | .error e => .error e
  | .ok row =>
    match assign row j v with
    | .error e => .error e
    | .ok row1 => assign m i row1

/-! ## SimpleNeuralNetwork.cpp: the program state -/

/-- The parameters of the network, the variables `weight_hidd`, `bias_hidd`,
`weight_outp` and `bias_outp` of `main`. -/
structure Network where
  weight_hidd : List (List ℝ)
  bias_hidd : List ℝ
  weight_outp : List (List ℝ)
  bias_outp : List ℝ

/-- The accumulators of one epoch, lines 150-155. -/
structure Accumulators where
  total_loss : ℝ
  acc_gradient_hidd : List (List ℝ)
  acc_gradient_bias_hidd : List ℝ
  acc_gradient_outp : List ℝ
  acc_gradient_bias_outp : ℝ

/-- The two vectors that the hidden-layer loop fills. -/
structure Hidden where
  logit_hidd : List ℝ
  output_hidd : List ℝ

/-- What the forward pass of one sample leaves behind, lines 163-171. -/
structure Forward where
  logit_hidd : List ℝ
  output_hidd : List ℝ
  logit_outp : ℝ
  loss : ℝ

/-- The gradients of one sample, lines 178-189. -/
structure Gradients where
  gradient_hidd : List (List ℝ)
  gradient_bias_hidd : List ℝ
  gradient_outp : List ℝ
  gradient_bias_outp : ℝ

/-- The variables that the epoch loop carries from one epoch to the next. -/
structure Training where
  net : Network
  best_loss : ℝ
  best_loss_epoch : Nat

/-- The constant `input_neuron_count`, line 118. -/
def input_neuron_count : Nat := 2

/-- The constant `output_neuron_count`, line 119. -/
def output_neuron_count : Nat := 1

/-- The constant `batch`, lines 121-126. -/
def batch : List (ℝ × ℝ) := [(0, 0), (1, 0), (0, 1), (1, 1)]

/-- The constant `batch_answ`, line 127. -/
def batch_answ : List ℝ := [0, 1, 1, 0]

noncomputable section Program

/-! ### Initialisation, lines 129-145 -/

/-- The statement `m[i][j] = Random::Double(lo, hi)` of lines 133 and 142, on the
matrix and the generator. -/
def draw_entry {E : Type} (lib : EngineLib E) (lo hi : ℝ) (i j : Nat)
    (s : List (List ℝ) × Random E) : Except Failure (List (List ℝ) × Random E) :=
  match Random.Double lib lo hi s.2 with
  | .error e => .error e
  | .ok (x, r1) =>
    match assign2 s.1 i j x with
    | .error e => .error e
    | .ok m1 => .ok (m1, r1)

/-- The two nested loops of lines 131-135 and 140-144 over a matrix that has been
allocated with `rows` rows of `cols` zeros. -/
def draw_matrix {E : Type} (lib : EngineLib E) (lo hi : ℝ) (rows cols : Nat) (r : Random E) :
    Except Failure (List (List ℝ) × Random E) :=
  for_loop (fun i s => for_loop (draw_entry lib lo hi i) 0 cols s) 0 rows
    (List.replicate rows (List.replicate cols 0), r)

/-- The initialisation of the parameters, lines 129-145. Both matrices are drawn
from `[-xavier_hidden, xavier_hidden]`; `xavier_output` is computed and not used. -/
def init_network {E : Type} (lib : EngineLib E) (hidd_neuron_count : Nat) (r : Random E) :
    Except Failure (Network × Random E) :=
  let xavier_hidden := xavier_limit (input_neuron_count : ℝ) (hidd_neuron_count : ℝ)
  match draw_matrix lib (-xavier_hidden) xavier_hidden hidd_neuron_count
      input_neuron_count r with
  | .error e => .error e
  | .ok (weight_hidd, r1) =>
    let bias_hidd := List.replicate hidd_neuron_count (0 : ℝ)
    match draw_matrix lib (-xavier_hidden) xavier_hidden output_neuron_count
        hidd_neuron_count r1 with
    | .error e => .error e
    | .ok (weight_outp, r2) =>
      let bias_outp := List.replicate output_neuron_count (0 : ℝ)
      .ok ({ weight_hidd := weight_hidd, bias_hidd := bias_hidd,
             weight_outp := weight_outp, bias_outp := bias_outp }, r2)

/-! ### Forward pass, lines 163-171 -/

/-- The body of the loop at lines 165-168. -/
def hidden_body (net : Network) (input : List ℝ) (i : Nat) (s : Hidden) :
    Except Failure Hidden := do
  let row ← at_index net.weight_hidd i
  let dot ← vec_dot row input
  let bias ← at_index net.bias_hidd i
  let logit_hidd ← assign s.logit_hidd i (dot + bias)
  let logit ← at_index logit_hidd i
  let output_hidd ← assign s.output_hidd i (tanh logit)
  pure { logit_hidd := logit_hidd, output_hidd := output_hidd }

/-- The forward pass of one sample, lines 163-171. -/
def forward_pass (net : Network) (hidd_neuron_count : Nat) (input : List ℝ) (target : ℝ) :
    Except Failure Forward := do
  let s ← for_loop (hidden_body net input) 0 hidd_neuron_count
    { logit_hidd := List.replicate hidd_neuron_count 0,
      output_hidd := List.replicate hidd_neuron_count 0 }
  let row ← at_index net.weight_outp 0
  let dot ← vec_dot row s.output_hidd
  let bias ← at_index net.bias_outp 0
  let logit_outp := dot + bias
  pure { logit_hidd := s.logit_hidd, output_hidd := s.output_hidd,
         logit_outp := logit_outp, loss := bce_with_logits_loss logit_outp target }

/-! ### Backpropagation, lines 176-197 -/

/-- The body of the loop at lines 184-186. -/
def delta_hidd_body (net : Network) (fw : Forward) (delta_outp : ℝ) (i : Nat)
    (delta_hidd : List ℝ) : Except Failure (List ℝ) := do
  let w ← at_index2 net.weight_outp 0 i
  let logit ← at_index fw.logit_hidd i
  assign delta_hidd i ((w * delta_outp) * tanh_derivative logit)

/-- The gradients of one sample, lines 178-189. -/
def backward (net : Network) (hidd_neuron_count : Nat) (input : List ℝ) (target : ℝ)
    (fw : Forward) : Except Failure Gradients := do
  let delta_outp := bce_with_logits_loss_delta fw.logit_outp target
  let gradient_outp ← vec_scale fw.output_hidd delta_outp
  let gradient_bias_outp := delta_outp
  let delta_hidd ← for_loop (delta_hidd_body net fw delta_outp) 0 hidd_neuron_count
    (List.replicate hidd_neuron_count 0)
  let gradient_hidd := weights_gradient delta_hidd input
  let gradient_bias_hidd := delta_hidd
  pure { gradient_hidd := gradient_hidd, gradient_bias_hidd := gradient_bias_hidd,
         gradient_outp := gradient_outp, gradient_bias_outp := gradient_bias_outp }

/-- The statement `acc_gradient_hidd[i][j] += gradient_hidd[i][j]`, line 192. -/
def accumulate_entry (g : Gradients) (i j : Nat) (acc : List (List ℝ)) :
    Except Failure (List (List ℝ)) := do
  let a ← at_index2 acc i j
  let d ← at_index2 g.gradient_hidd i j
  assign2 acc i j (a + d)

/-- The body of the loop at lines 191-196. -/
def accumulate_body (g : Gradients) (i : Nat) (acc : Accumulators) :
    Except Failure Accumulators := do
  let hidd ← for_loop (accumulate_entry g i) 0 input_neuron_count acc.acc_gradient_hidd
  let a ← at_index acc.acc_gradient_bias_hidd i
  let d ← at_index g.gradient_bias_hidd i
  let bias_hidd ← assign acc.acc_gradient_bias_hidd i (a + d)
  let a ← at_index acc.acc_gradient_outp i
  let d ← at_index g.gradient_outp i
  let outp ← assign acc.acc_gradient_outp i (a + d)
  pure { acc with acc_gradient_hidd := hidd, acc_gradient_bias_hidd := bias_hidd,
                  acc_gradient_outp := outp }

/-- The condition `epoch % print_frequency == 0 || epoch == 1` of lines 199 and 221.
The remainder is taken first; a zero divisor has no defined result. -/
def print_due (epoch print_frequency : Nat) : Except Failure Bool :=
  if print_frequency = 0 then .error .division_by_zero
  else .ok (epoch % print_frequency == 0 || epoch == 1)

/-- The body of the loop over the samples, lines 157-206. Printing leaves the state
as it is, so only the evaluation of its condition is kept. -/
def sample_body (net : Network) (hidd_neuron_count epoch print_frequency : Nat) (n : Nat)
    (acc : Accumulators) : Except Failure Accumulators := do
  let x ← at_index batch n
  let input := [x.1, x.2]
  let target ← at_index batch_answ n
  let fw ← forward_pass net hidd_neuron_count input target
  let acc1 := { acc with total_loss := acc.total_loss + fw.loss }
  let g ← backward net hidd_neuron_count input target fw
  let acc2 ← for_loop (accumulate_body g) 0 hidd_neuron_count acc1
  let acc3 := { acc2 with
    acc_gradient_bias_outp := acc2.acc_gradient_bias_outp + g.gradient_bias_outp }
  let _ ← print_due epoch print_frequency
  pure acc3

/-! ### Parameter update, lines 208-213 -/

/-- The statement `weight_hidd[i][j] -= learning_rate * (acc_gradient_hidd[i][j] / 4)`. -/
def update_entry (learning_rate : ℝ) (acc : Accumulators) (i j : Nat)
    (weight_hidd : List (List ℝ)) : Except Failure (List (List ℝ)) := do
  let a ← at_index2 acc.acc_gradient_hidd i j
  let w ← at_index2 weight_hidd i j
  assign2 weight_hidd i j (w - learning_rate * (a / (batch.length : ℝ)))

/-- The body of the loop at lines 208-212. -/
def update_body (learning_rate : ℝ) (acc : Accumulators) (i : Nat) (net : Network) :
    Except Failure Network := do
  let weight_hidd ← for_loop (update_entry learning_rate acc i) 0 input_neuron_count
    net.weight_hidd
  let a ← at_index acc.acc_gradient_bias_hidd i
  let b ← at_index net.bias_hidd i
  let bias_hidd ← assign net.bias_hidd i (b - learning_rate * (a / (batch.length : ℝ)))
  let a ← at_index acc.acc_gradient_outp i
  let w ← at_index2 net.weight_outp 0 i
  let weight_outp ← assign2 net.weight_outp 0 i
    (w - learning_rate * (a / (batch.length : ℝ)))
  pure { net with weight_hidd := weight_hidd, bias_hidd := bias_hidd,
                  weight_outp := weight_outp }

/-- The accumulators at the start of an epoch, lines 150-155. -/
def fresh_accumulators (hidd_neuron_count : Nat) : Accumulators :=
  { total_loss := 0,
    acc_gradient_hidd := List.replicate hidd_neuron_count (List.replicate input_neuron_count 0),
    acc_gradient_bias_hidd := List.replicate hidd_neuron_count 0,
    acc_gradient_outp := List.replicate hidd_neuron_count 0,
    acc_gradient_bias_outp := 0 }

/-- One epoch up to and including the update of the parameters, lines 150-213: the
new parameters and the accumulated loss. -/
def train_epoch (learning_rate : ℝ) (hidd_neuron_count epoch print_frequency : Nat)
    (net : Network) : Except Failure (Network × ℝ) := do
  let acc ← for_loop (sample_body net hidd_neuron_count epoch print_frequency) 0 batch.length
    (fresh_accumulators hidd_neuron_count)
  let net1 ← for_loop (update_body learning_rate acc) 0 hidd_neuron_count net
  let b ← at_index net1.bias_outp 0
  let bias_outp ← assign net1.bias_outp 0
    (b - learning_rate * (acc.acc_gradient_bias_outp / (batch.length : ℝ)))
  pure ({ net1 with bias_outp := bias_outp }, acc.total_loss)

/-- The body of the epoch loop, lines 149-224. -/
def epoch_body (learning_rate : ℝ) (hidd_neuron_count print_frequency : Nat) (epoch : Nat)
    (t : Training) : Except Failure Training := do
  let (net, total_loss) ← train_epoch learning_rate hidd_neuron_count epoch print_frequency t.net
  let t1 : Training :=
    if t.best_loss > total_loss / (batch.length : ℝ) then
      { net := net, best_loss := total_loss / (batch.length : ℝ), best_loss_epoch := epoch }
    else { t with net := net }
  let _ ← print_due epoch print_frequency
  pure t1

/-- The program state when the epoch loop is entered, lines 115-116. -/
def training_start (net : Network) : Training :=
  { net := net, best_loss := 1.0e300, best_loss_epoch := 0 }

/-- The epoch loop `for (epoch = 1; epoch <= epochs; ++epoch)`, lines 149-224. -/
def train (learning_rate : ℝ) (hidd_neuron_count print_frequency epochs : Nat)
    (net : Network) : Except Failure Training :=
  for_loop (epoch_body learning_rate hidd_neuron_count print_frequency) 1 epochs
    (training_start net)

/-! ### Final evaluation, lines 232-246 -/

/-- The body of the loop at lines 237-240. -/
def evaluation_hidden_body (net : Network) (input : List ℝ) (i : Nat) (s : Hidden) :
    Except Failure Hidden := do
  let row ← at_index net.weight_hidd i
  let dot ← vec_dot row input
  let bias ← at_index net.bias_hidd i
  let logit_hidd ← assign s.logit_hidd i (dot + bias)
  let logit ← at_index logit_hidd i
  let output_hidd ← assign s.output_hidd i (tanh logit)
  pure { logit_hidd := logit_hidd, output_hidd := output_hidd }

/-- The body of the loop over `batch` at lines 232-246, for one input pair: the
value `out` that is printed, and the parameters as the block leaves them. -/
def evaluate_sample (hidd_neuron_count : Nat) (x : ℝ × ℝ) (net : Network) :
    Except Failure (ℝ × Network) := do
  let input := [x.1, x.2]
  let s ← for_loop (evaluation_hidden_body net input) 0 hidd_neuron_count
    { logit_hidd := List.replicate hidd_neuron_count 0,
      output_hidd := List.replicate hidd_neuron_count 0 }
  let row ← at_index net.weight_outp 0
  let dot ← vec_dot row s.output_hidd
  let bias ← at_index net.bias_outp 0
  let logit_outp := dot + bias
  let out := sigmoid logit_outp
  pure (out, net)

end Program

/-! ## Index functions

The vectors of the program have the length `hidd_neuron_count` and its matrices have
rows of length 2 or `hidd_neuron_count`. For the proofs they are read as functions of
the index; the definitions below go back and forth. -/

/-- The list `[f 0, ..., f (n - 1)]`. -/
def tab {β : Type} (n : Nat) (f : Nat → β) : List β := (List.range n).map f

/-- The entry `m[i][j]` of a matrix, `0` outside of it. -/
def entry (m : List (List ℝ)) (i j : Nat) : ℝ := (m.getD i []).getD j 0

/-- One number per parameter of the network, as functions of the index: the
parameters themselves, the gradients of a sample, or accumulated gradients. -/
structure Params where
  hidd : Nat → Nat → ℝ
  bias_hidd : Nat → ℝ
  outp : Nat → ℝ
  bias_outp : ℝ

/-- The network with `h` hidden units whose entries are given by `p`. -/
def Params.toNetwork (h : Nat) (p : Params) : Network :=
  { weight_hidd := tab h (fun i => tab input_neuron_count (p.hidd i)),
    bias_hidd := tab h p.bias_hidd,
    weight_outp := [tab h p.outp],
    bias_outp := [p.bias_outp] }

/-- The entries of a network. -/
def Network.toParams (net : Network) : Params :=
  { hidd := entry net.weight_hidd,
    bias_hidd := fun i => net.bias_hidd.getD i 0,
    outp := entry net.weight_outp 0,
    bias_outp := net.bias_outp.getD 0 0 }

/-- The gradients of a sample with `h` hidden units whose entries are given by `p`. -/
def Params.toGradients (h : Nat) (p : Params) : Gradients :=
  { gradient_hidd := tab h (fun i => tab input_neuron_count (p.hidd i)),
    gradient_bias_hidd := tab h p.bias_hidd,
    gradient_outp := tab h p.outp,
    gradient_bias_outp := p.bias_outp }

/-- The accumulators with `h` hidden units, loss `loss` and entries given by `p`. -/
def Params.toAccumulators (h : Nat) (loss : ℝ) (p : Params) : Accumulators :=
  { total_loss := loss,
    acc_gradient_hidd := tab h (fun i => tab input_neuron_count (p.hidd i)),
    acc_gradient_bias_hidd := tab h p.bias_hidd,
    acc_gradient_outp := tab h p.outp,
    acc_gradient_bias_outp := p.bias_outp }

/-- The shapes that the parameters have for `h` hidden units: `weight_hidd` is
`h` x 2, `bias_hidd` has length `h`, `weight_outp` is 1 x `h`, `bias_outp` has length 1. -/
def Shaped (net : Network) (h : Nat) : Prop :=
  net.weight_hidd.length = h ∧ (∀ row ∈ net.weight_hidd, row.length = input_neuron_count) ∧
  net.bias_hidd.length = h ∧
  net.weight_outp.length = output_neuron_count ∧ (∀ row ∈ net.weight_outp, row.length = h) ∧
  net.bias_outp.length = output_neuron_count

/-- The matrix is `rows` x `cols`, the generator is initialised, and the entries that
come before position `(i, j)` in row order lie in `[lo, hi]`. -/
def DrawnUpTo {E : Type} (lo hi : ℝ) (rows cols i j : Nat) (s : List (List ℝ) × Random E) :
    Prop :=
  s.2.isInitialized = true ∧
  ∃ f : Nat → Nat → ℝ, s.1 = tab rows (fun a => tab cols (f a)) ∧
    ∀ a b, b < cols → a < i ∨ (a = i ∧ b < j) → lo ≤ f a b ∧ f a b ≤ hi

/-- The two coordinates of an input pair by index. -/
def coordinate (x : ℝ × ℝ) (j : Nat) : ℝ := if j = 0 then x.1 else x.2

/-- All entries zero. -/
def Params.zero : Params :=
  { hidd := fun _ _ => 0, bias_hidd := fun _ => 0, outp := fun _ => 0, bias_outp := 0 }

/-- Entrywise sum `a + g`. -/
def Params.add (a g : Params) : Params :=
  { hidd := fun i j => a.hidd i j + g.hidd i j,
    bias_hidd := fun i => a.bias_hidd i + g.bias_hidd i,
    outp := fun i => a.outp i + g.outp i,
    bias_outp := a.bias_outp + g.bias_outp }

/-- The input pair of sample `n`. -/
def sample_input (n : Nat) : ℝ × ℝ := batch.getD n (0, 0)

/-- The target of sample `n`. -/
def sample_target (n : Nat) : ℝ := batch_answ.getD n 0

/-- The entries `p` with entry `(i, j)` of the hidden weights replaced by `t`. -/
def Params.with_hidd (p : Params) (i j : Nat) (t : ℝ) : Params :=
  { p with hidd := fun a b => if a = i ∧ b = j then t else p.hidd a b }

/-- The entries `p` with hidden bias `i` replaced by `t`. -/
def Params.with_bias_hidd (p : Params) (i : Nat) (t : ℝ) : Params :=
  { p with bias_hidd := fun a => if a = i then t else p.bias_hidd a }

/-- The entries `p` with output weight `i` replaced by `t`. -/
def Params.with_outp (p : Params) (i : Nat) (t : ℝ) : Params :=
  { p with outp := fun a => if a = i then t else p.outp a }

/-- The entries `p` with the output bias replaced by `t`. -/
def Params.with_bias_outp (p : Params) (t : ℝ) : Params :=
  { p with bias_outp := t }

/-- The network `net` with `weight_hidd[i][j]` replaced by `t`. -/
def Network.with_weight_hidd (net : Network) (i j : Nat) (t : ℝ) : Network :=
  { net with weight_hidd := net.weight_hidd.set i ((net.weight_hidd.getD i []).set j t) }

/-- The network `net` with `bias_hidd[i]` replaced by `t`. -/
def Network.with_bias_hidd (net : Network) (i : Nat) (t : ℝ) : Network :=
  { net with bias_hidd := net.bias_hidd.set i t }

/-- The network `net` with `weight_outp[0][i]` replaced by `t`. -/
def Network.with_weight_outp (net : Network) (i : Nat) (t : ℝ) : Network :=
  { net with weight_outp := net.weight_outp.set 0 ((net.weight_outp.getD 0 []).set i t) }

/-- The network `net` with `bias_outp[0]` replaced by `t`. -/
def Network.with_bias_outp (net : Network) (t : ℝ) : Network :=
  { net with bias_outp := net.bias_outp.set 0 t }

/-- An engine library whose every draw returns the lower end of the range, for
instances of the theorems. -/
def lower_end_engine : EngineLib Unit :=
  { fresh := (), seeded := fun _ => (), draw := fun _ lo _ => (lo, ()) }

noncomputable section ClosedForms

/-- Entrywise `p - learning_rate * (a / 4)`, the update of lines 208-213. -/
def Params.descend (learning_rate : ℝ) (p a : Params) : Params :=
  { hidd := fun i j => p.hidd i j - learning_rate * (a.hidd i j / 4),
    bias_hidd := fun i => p.bias_hidd i - learning_rate * (a.bias_hidd i / 4),
    outp := fun i => p.outp i - learning_rate * (a.outp i / 4),
    bias_outp := p.bias_outp - learning_rate * (a.bias_outp / 4) }

/-- The logit of hidden unit `i` on the input pair `x`. -/
def hidden_logit (p : Params) (x : ℝ × ℝ) (i : Nat) : ℝ :=
  p.hidd i 0 * x.1 + p.hidd i 1 * x.2 + p.bias_hidd i

/-- The logit of the output unit on the input pair `x`. -/
def output_logit (h : Nat) (p : Params) (x : ℝ × ℝ) : ℝ :=
  (∑ i in Finset.range h, p.outp i * tanh (hidden_logit p x i)) + p.bias_outp

/-- The loss of the sample `(x, target)`. -/
def sample_loss (h : Nat) (p : Params) (x : ℝ × ℝ) (target : ℝ) : ℝ :=
  bce_with_logits_loss (output_logit h p x) target

/-- The result of the forward pass as a function of the indices. -/
def forward_of (h : Nat) (p : Params) (x : ℝ × ℝ) (target : ℝ) : Forward :=
  { logit_hidd := tab h (hidden_logit p x),
    output_hidd := tab h (fun i => tanh (hidden_logit p x i)),
    logit_outp := output_logit h p x,
    loss := sample_loss h p x target }

/-- The gradients of the sample `(x, target)` as functions of the indices. -/
def gradients_of (h : Nat) (p : Params) (x : ℝ × ℝ) (target : ℝ) : Params :=
  let delta_outp := bce_with_logits_loss_delta (output_logit h p x) target
  let delta_hidd := fun i => (p.outp i * delta_outp) * tanh_derivative (hidden_logit p x i)
  { hidd := fun i j => delta_hidd i * coordinate x j,
    bias_hidd := delta_hidd,
    outp := fun i => tanh (hidden_logit p x i) * delta_outp,
    bias_outp := delta_outp }

/-- The gradients and the loss accumulated over the first `k` samples, from the
parameters `p`. -/
def accumulated (h : Nat) (p : Params) : Nat → Params × ℝ
  | 0 => (Params.zero, 0)
  | k + 1 =>
    ((accumulated h p k).1.add (gradients_of h p (sample_input k) (sample_target k)),
     (accumulated h p k).2 + sample_loss h p (sample_input k) (sample_target k))

/-- The parameters after one epoch that starts from `p`. -/
def epoch_of (learning_rate : ℝ) (h : Nat) (p : Params) : Params :=
  Params.descend learning_rate p (accumulated h p 4).1

/-- The loss of the sample `(x, target)` as the forward pass of the program computes
it from the parameters `net`. -/
def loss_of (net : Network) (h : Nat) (x : ℝ × ℝ) (target : ℝ) : Except Failure ℝ :=
  match forward_pass net h [x.1, x.2] target with
  | .ok fw => .ok fw.loss
  | .error e => .error e

/-- The gradients of sample `n` computed from the parameters `net`: the forward pass
followed by the backward pass, as in the body of the loop over the samples. -/
def sample_gradients (net : Network) (h : Nat) (n : Nat) : Except Failure Gradients := do
  let x ← at_index batch n
  let target ← at_index batch_answ n
  let fw ← forward_pass net h [x.1, x.2] target
  backward net h [x.1, x.2] target fw

/-- A network with two hidden units, for instances of the theorems. -/
def sample_network : Network :=
  { weight_hidd := [[1, 1], [1, -1]], bias_hidd := [0, 0],
    weight_outp := [[1, -1]], bias_outp := [0] }

/-- The parameters after `k` epochs that start from `p`. -/
def params_after (learning_rate : ℝ) (h : Nat) (p : Params) : Nat → Params
  | 0 => p
  | k + 1 => epoch_of learning_rate h (params_after learning_rate h p k)

/-- The mean loss that epoch `k` (counted from 1) computes. -/
def mean_loss (learning_rate : ℝ) (h : Nat) (p : Params) (k : Nat) : ℝ :=
  (accumulated h (params_after learning_rate h p (k - 1)) 4).2 / 4

/-- The pair `(best_loss, best_loss_epoch)` after `k` epochs with mean losses
`M 1, M 2, ...`, as lines 115-116 and 216-219 keep it. -/
def track (M : Nat → ℝ) : Nat → ℝ × Nat
  | 0 => (1.0e300, 0)
  | k + 1 => if (track M k).1 > M (k + 1) then (M (k + 1), k + 1) else track M k

/-- The mean loss `total_loss / batch.size()` that the program computes in epoch
`epoch`, when it is started from the parameters `net`: the epochs before it are run,
then the epoch itself. -/
def epoch_mean_loss (learning_rate : ℝ) (h print_frequency : Nat) (net : Network)
    (epoch : Nat) : Except Failure ℝ := do
  let t ← train learning_rate h print_frequency (epoch - 1) net
  let (_, total_loss) ← train_epoch learning_rate h epoch print_frequency t.net
  pure (total_loss / (batch.length : ℝ))

/-- The state that the initialisation of lines 129-145 establishes: the shapes of
`h` hidden units, every weight within the Xavier bound of the hidden layer, every
bias zero. -/
def InitialState (net : Network) (h : Nat) : Prop :=
  Shaped net h ∧
  (∀ row ∈ net.weight_hidd, ∀ w ∈ row,
    -xavier_limit (input_neuron_count : ℝ) (h : ℝ) ≤ w ∧
      w ≤ xavier_limit (input_neuron_count : ℝ) (h : ℝ)) ∧
  (∀ row ∈ net.weight_outp, ∀ w ∈ row,
    -xavier_limit (input_neuron_count : ℝ) (h : ℝ) ≤ w ∧
      w ≤ xavier_limit (input_neuron_count : ℝ) (h : ℝ)) ∧
  (∀ b ∈ net.bias_hidd, b = 0) ∧ (∀ b ∈ net.bias_outp, b = 0)

end ClosedForms

/-! ## Random.hpp: sequences of calls -/

/-- A call of the class `Random` as the program can make it. -/
inductive RandomCall where
  | Init (initSeed : Int)
  | Double (min max : ℝ)

/-- Whether a call is a call of `Random::Init`. -/
def RandomCall.isInit : RandomCall → Bool
  | .Init _ => true
  | .Double _ _ => false

/-- The static members after a call, whether it returned or threw. `Random::Double`
throws in its first statement, before any member is assigned. -/
def Random.after {E : Type} (lib : EngineLib E) (c : RandomCall) (r : Random E) : Random E :=
  match c with
  | .Init initSeed => Random.Init lib initSeed r
  | .Double min max =>
    match Random.Double lib min max r with
    | .ok (_, r1) => r1
    | .error _ => r

/-- The static members after a sequence of calls made from the state `r`. -/
def Random.after_all {E : Type} (lib : EngineLib E) (calls : List RandomCall) (r : Random E) :
    Random E :=
  calls.foldl (fun r c => Random.after lib c r) r

/-- The outcomes of successive calls `Random::Double(min, max)`, one per pair of the
list, made from the state `r`. -/
def Random.doubles {E : Type} (lib : EngineLib E) :
    List (ℝ × ℝ) → Random E → List (Except Failure ℝ)
  | [], _ => []
  | (min, max) :: rest, r =>
    match Random.Double lib min max r with
    | .ok (x, r1) => .ok x :: Random.doubles lib rest r1
    | .error e => .error e :: Random.doubles lib rest r

/-! ## SimpleNeuralNetwork.cpp: the configuration step, lines 33-113 -/

/-- The outcomes of `std::stod(str, &pos)`: a value together with the number of
characters read, or one of its two exceptions. -/
inductive StodResult where
  | value (res : ℝ) (pos : Nat)
  | invalid_argument
  | out_of_range

/-- The number that a string of decimal digits denotes. -/
def decimal_value (cs : List Char) : Nat :=
  cs.foldl (fun n c => 10 * n + (c.toNat - 48)) 0

/-- The function `string_to_number`, lines 33-43. After the guard the string is a
non-empty string of decimal digits, on which `std::stoi` returns the number it denotes
or throws `std::out_of_range` above `INT_MAX`. -/
def string_to_number (str : String) : Except Failure Int :=
  if str.data.isEmpty || !(str.data.all Char.isDigit) then .error .invalid_argument
  else if decimal_value str.data > 2147483647 then .error .invalid_argument
  else .ok (decimal_value str.data : Nat)

/-- The function `string_to_double`, lines 45-62, over the `std::stod` of the
library. When `std::stod` stops before the end of the string the function constructs
a `std::invalid_argument` from a null pointer, which has no defined behaviour. -/
def string_to_double (stod : String → StodResult) (str : String) : Except Failure ℝ :=
  if str.data.isEmpty then .error .invalid_argument
  else
    match stod str with
    | .value res pos => if pos ≠ str.length then .error .undefined else .ok res
    | .out_of_range => .error .invalid_argument
    | .invalid_argument => .error .invalid_argument

/-- The five lines that the user types, in the order in which they are read. -/
structure ConfigInput where
  seed : String
  epochs : String
  print_frequency : String
  learning_rate : String
  hidd_neuron_count : String

/-- The variables that the configuration step sets, lines 71-75. -/
structure Config where
  seed : Int
  epochs : Nat
  print_frequency : Nat
  learning_rate : ℝ
  hidd_neuron_count : Nat

/-- The configuration step, lines 87-109, on five lines of input. A seed line that
`string_to_number` rejects is replaced by a number from `std::random_device`, here
`entropy`; every other rejection leaves the step. -/
def configure (stod : String → StodResult) (entropy : Int) (input : ConfigInput) :
    Except Failure Config := do
  let seed :=
    match string_to_number input.seed with
    | .ok n => n
    | .error _ => entropy
  let epochs ← string_to_number input.epochs
  let print_frequency ← string_to_number input.print_frequency
  let learning_rate ← string_to_double stod input.learning_rate
  let hidd_neuron_count ← string_to_number input.hidd_neuron_count
  pure { seed := seed, epochs := epochs.toNat, print_frequency := print_frequency.toNat,
         learning_rate := learning_rate, hidd_neuron_count := hidd_neuron_count.toNat }

noncomputable section WholeProgram

/-- A reading of `std::stod` on the decimal strings that the instances below use;
every other string counts as unreadable here. -/
def stod_sample (str : String) : StodResult :=
  if str = "0.5" then .value (1 / 2) 3
  else if str = "-0.5" then .value (-(1 / 2)) 4
  else if str = "0" then .value 0 1
  else .invalid_argument

/-- The program from the configuration step to the end of the epoch loop, lines
87-224: configuration, `Random::Init(seed)`, initialisation of the parameters,
training. -/
def run {E : Type} (lib : EngineLib E) (stod : String → StodResult) (entropy : Int)
    (input : ConfigInput) : Except Failure Training := do
  let config ← configure stod entropy input
  let r := Random.Init lib config.seed (Random.start lib)
  let (net, _) ← init_network lib config.hidd_neuron_count r
  train config.learning_rate config.hidd_neuron_count config.print_frequency config.epochs net

end WholeProgram

/-! ## Theorems: linear algebra -/

section LinearAlgebraFacts

/-- The operators on small integer inputs. -/
theorem linear_algebra_evaluates :
    vec_add [1, 2] [3, (4 : Int)] = .ok [4, 6] ∧
    vec_sub [1, 2] [3, (4 : Int)] = .ok [-2, -2] ∧
    vec_scale [1, 2] (3 : Int) = .ok [3, 6] ∧
    vec_dot [1, 2] [3, (4 : Int)] = .ok 11 ∧
    vec_dot [1, 2] [(3 : Int)] = .error .invalid_argument ∧
    mtx_add [[1, 2], [3, 4]] [[1, 1], [1, (1 : Int)]] = .ok [[2, 3], [4, 5]] ∧
    mtx_vec_mul [[1, 2], [3, 4]] [1, (1 : Int)] = .ok [3, 7] ∧
    weights_gradient [1, 2] [3, (4 : Int)] = [[3, 4], [6, 8]] := by
  decide

theorem transform2_total {β γ : Type} (f : β → β → γ) :
    ∀ (xs ys : List β), xs.length = ys.length →
      transform2 (fun a b => .ok (f a b)) xs ys = .ok (List.zipWith f xs ys)
  | [], _, _ => by simp [transform2]
  | _ :: _, [], h => by simp at h
  | a :: as, b :: bs, h => by
    have ih := transform2_total f as bs (by simpa using h)
    simp [transform2, under_policy, ih]

theorem transform1_total {β γ : Type} (f : β → γ) :
    ∀ (xs : List β), transform1 (fun a => .ok (f a)) xs = .ok (xs.map f)
  | [] => by simp [transform1]
  | a :: as => by
    have ih := transform1_total f as
    simp [transform1, under_policy, ih]

theorem vec_add_eq {α : Type} [Add α] (v1 v2 : List α) (h : v1.length = v2.length) :
    vec_add v1 v2 = .ok (List.zipWith (· + ·) v1 v2) := by
  simp [vec_add, h, transform2_total]

theorem vec_sub_eq {α : Type} [Sub α] (v1 v2 : List α) (h : v1.length = v2.length) :
    vec_sub v1 v2 = .ok (List.zipWith (· - ·) v1 v2) := by
  simp [vec_sub, h, transform2_total]

theorem vec_scale_eq {α : Type} [Mul α] (v : List α) (k : α) : vec_scale v k = .ok (v.map (· * k)) := by
  simp [vec_scale, transform1_total]

theorem inner_product_returns {α : Type} [Add α] [Mul α] :
    ∀ (xs ys : List α) (init : α), xs.length ≤ ys.length →
      ∃ d, inner_product xs ys init = .ok d
  | [], _, init, _ => ⟨init, by simp [inner_product]⟩
  | _ :: _, [], _, h => by simp at h
  | a :: as, b :: bs, init, h => by
    obtain ⟨d, hd⟩ := inner_product_returns as bs (init + a * b) (by simpa using h)
    exact ⟨d, by simpa [inner_product] using hd⟩

theorem vec_dot_of_length_eq {α : Type} [Add α] [Mul α] [Zero α] (v1 v2 : List α) (h : v1.length = v2.length) :
    vec_dot v1 v2 = inner_product v1 v2 0 := by
  simp [vec_dot, h]

theorem mtx_vec_rows_spec {α : Type} [Add α] [Mul α] [Zero α] (vec : List α) :
    ∀ (rows : List (List α)), (∀ row ∈ rows, row.length = vec.length) →
      ∃ res, mtx_vec_rows vec rows = .ok res ∧ res.length = rows.length ∧
        ∀ (r : Nat) row, rows[r]? = some row → ∃ d, res[r]? = some d ∧ vec_dot row vec = .ok d
  | [], _ => ⟨[], by simp [mtx_vec_rows]⟩
  | row0 :: rows, h => by
    have h0 : row0.length = vec.length := h row0 (by simp)
    obtain ⟨d0, hd0⟩ := inner_product_returns row0 vec 0 (le_of_eq h0)
    obtain ⟨res, hres, hlen, hget⟩ :=
      mtx_vec_rows_spec vec rows (fun row hrow => h row (by simp [hrow]))
    refine ⟨d0 :: res, by simp [mtx_vec_rows, hd0, hres], by simp [hlen], ?_⟩
    intro r row hr
    cases r with
    | zero =>
      simp only [List.getElem?_cons_zero, Option.some.injEq] at hr
      subst hr
      exact ⟨d0, by simp, by rw [vec_dot_of_length_eq _ _ h0, hd0]⟩
    | succ r =>
      simp only [List.getElem?_cons_succ] at hr
      obtain ⟨d, hd, hdot⟩ := hget r row hr
      exact ⟨d, by simpa using hd, hdot⟩

/-- Claim C8. For a matrix with at least one row whose rows all have length `n`, and a
vector `vec`: when `n` differs from the length of `vec` the matrix-vector product
fails with `invalid_argument`; otherwise it returns a vector with one entry per row,
and the entry of row `r` is the dot product of that row with `vec`. -/
theorem mtx_vec_mul_contract {α : Type} [Add α] [Mul α] [Zero α] (mtx : List (List α)) (vec : List α) (n : Nat)
    (hrows : mtx ≠ []) (hrect : ∀ row ∈ mtx, row.length = n) :
    (n ≠ vec.length → mtx_vec_mul mtx vec = .error .invalid_argument) ∧
    (n = vec.length →
      ∃ res, mtx_vec_mul mtx vec = .ok res ∧ res.length = mtx.length ∧
        ∀ (r : Nat) row, mtx[r]? = some row → ∃ d, res[r]? = some d ∧ vec_dot row vec = .ok d) := by
  cases mtx with
  | nil => exact absurd rfl hrows
  | cons row0 rows =>
    have h0 : row0.length = n := hrect row0 (by simp)
    constructor
    · intro hne
      simp [mtx_vec_mul, h0, hne]
    · intro heq
      obtain ⟨res, hres, hlen, hget⟩ :=
        mtx_vec_rows_spec vec (row0 :: rows) (fun row hrow => (hrect row hrow).trans heq)
      exact ⟨res, by simp [mtx_vec_mul, h0, heq, hres], hlen, hget⟩

theorem mtx_vec_mul_contract_witness :
    (2 ≠ [1, (1 : Int)].length →
      mtx_vec_mul [[1, 2], [3, 4]] [1, (1 : Int)] = .error .invalid_argument) ∧
    (2 = [1, (1 : Int)].length →
      ∃ res, mtx_vec_mul [[1, 2], [3, 4]] [1, (1 : Int)] = .ok res ∧
        res.length = [[1, 2], [3, (4 : Int)]].length ∧
        ∀ (r : Nat) row, [[1, 2], [3, (4 : Int)]][r]? = some row →
          ∃ d, res[r]? = some d ∧ vec_dot row [1, (1 : Int)] = .ok d) :=
  mtx_vec_mul_contract [[1, 2], [3, 4]] [1, (1 : Int)] 2 (by decide) (by decide)

/-- Claim C9. Vector add, vector sub and dot fail with `invalid_argument` exactly when
the two lengths differ; on equal lengths add and sub return a vector of that length
and dot returns a number. -/
theorem vec_ops_dimension_contract {α : Type} [Add α] [Sub α] [Mul α] [Zero α]
    (v1 v2 : List α) :
    (vec_add v1 v2 = .error .invalid_argument ↔ v1.length ≠ v2.length) ∧
    (vec_sub v1 v2 = .error .invalid_argument ↔ v1.length ≠ v2.length) ∧
    (vec_dot v1 v2 = .error .invalid_argument ↔ v1.length ≠ v2.length) ∧
    ((∃ e, vec_add v1 v2 = .error e) ↔ v1.length ≠ v2.length) ∧
    ((∃ e, vec_sub v1 v2 = .error e) ↔ v1.length ≠ v2.length) ∧
    ((∃ e, vec_dot v1 v2 = .error e) ↔ v1.length ≠ v2.length) ∧
    (v1.length = v2.length →
      (∃ res, vec_add v1 v2 = .ok res ∧ res.length = v1.length) ∧
      (∃ res, vec_sub v1 v2 = .ok res ∧ res.length = v1.length) ∧
      (∃ d, vec_dot v1 v2 = .ok d)) := by
  by_cases h : v1.length = v2.length
  · obtain ⟨d, hd⟩ := inner_product_returns v1 v2 0 (le_of_eq h)
    have hdot : vec_dot v1 v2 = .ok d := by rw [vec_dot_of_length_eq _ _ h, hd]
    simp [vec_add_eq v1 v2 h, vec_sub_eq v1 v2 h, hdot, h]
  · simp [vec_add, vec_sub, vec_dot, h]

theorem transform2_rows {β γ : Type} (op : β → β → Except Failure (List γ))
    (f : β → β → List γ) :
    ∀ (xs ys : List β), xs.length = ys.length →
      (∀ (r : Nat) a b, xs[r]? = some a → ys[r]? = some b → op a b = .ok (f a b)) →
      transform2 op xs ys = .ok (List.zipWith f xs ys)
  | [], _, _, _ => by simp [transform2]
  | _ :: _, [], h, _ => by simp at h
  | a :: as, b :: bs, h, hop => by
    have h0 : op a b = .ok (f a b) := hop 0 a b (by simp) (by simp)
    have ih := transform2_rows op f as bs (by simpa using h)
      (fun r x y hx hy => hop (r + 1) x y (by simpa using hx) (by simpa using hy))
    simp [transform2, under_policy, h0, ih]

/-- Matrix add and sub on row counts that differ: `invalid_argument`. -/
theorem mtx_add_sub_row_count {α : Type} [Add α] [Sub α] (A B : List (List α))
    (h : A.length ≠ B.length) :
    mtx_add A B = .error .invalid_argument ∧ mtx_sub A B = .error .invalid_argument := by
  simp [mtx_add, mtx_sub, h]

/-- Matrix add and sub on two non-empty matrices of one shape: the rows of the result
are the vector sums (differences) of the rows. -/
theorem mtx_add_sub_same_shape {α : Type} [Add α] [Sub α] (A B : List (List α)) (n : Nat)
    (hA : A ≠ []) (hlen : A.length = B.length)
    (hrowsA : ∀ row ∈ A, row.length = n) (hrowsB : ∀ row ∈ B, row.length = n) :
    mtx_add A B = .ok (List.zipWith (List.zipWith (· + ·)) A B) ∧
    mtx_sub A B = .ok (List.zipWith (List.zipWith (· - ·)) A B) := by
  have hrow : ∀ (r : Nat) a b, A[r]? = some a → B[r]? = some b → a.length = b.length := by
    intro r a b ha hb
    rw [hrowsA a (List.getElem?_mem ha), hrowsB b (List.getElem?_mem hb)]
  cases A with
  | nil => exact absurd rfl hA
  | cons a0 as =>
    constructor
    · have := transform2_rows (fun a b => vec_add a b) (List.zipWith (· + ·)) (a0 :: as) B hlen
        (fun r a b ha hb => vec_add_eq a b (hrow r a b ha hb))
      simp [mtx_add, hlen, this]
    · have := transform2_rows (fun a b => vec_sub a b) (List.zipWith (· - ·)) (a0 :: as) B hlen
        (fun r a b ha hb => vec_sub_eq a b (hrow r a b ha hb))
      simp [mtx_sub, hlen, this]

/-- Claim C10, the code at the input `A = [[1, 2]]`, `B = [[1, 2, 3]]`: the row counts
agree and the row lengths differ. The exception of the row operation is thrown inside
a `std::transform` that runs under `std::execution::par_unseq`, so matrix add and
matrix sub end in `std::terminate` and no `invalid_argument` reaches the caller. -/
theorem mtx_add_sub_row_length_mismatch :
    mtx_add [[(1 : ℝ), 2]] [[1, 2, 3]] = .error .terminate ∧
    mtx_sub [[(1 : ℝ), 2]] [[1, 2, 3]] = .error .terminate := by
  simp [mtx_add, mtx_sub, transform2, vec_add, vec_sub, under_policy]

end LinearAlgebraFacts

/-! ## Theorems: activations and losses -/

section LossFacts

theorem one_add_exp_pos (x : ℝ) : 0 < 1 + Real.exp x := by
  have := Real.exp_pos x
  linarith

/-- The fused loss is the softplus of the logit minus `logit * answ`. -/
theorem bce_with_logits_loss_eq_softplus (logit answ : ℝ) :
    bce_with_logits_loss logit answ = Real.log (1 + Real.exp logit) - logit * answ := by
  unfold bce_with_logits_loss
  rcases le_or_lt 0 logit with h | h
  · have hsplit : 1 + Real.exp logit = Real.exp logit * (1 + Real.exp (-logit)) := by
      rw [mul_add, mul_one, ← Real.exp_add, add_neg_cancel, Real.exp_zero, add_comm]
    rw [max_eq_left h, abs_of_nonneg h, hsplit,
      Real.log_mul (Real.exp_pos _).ne.symm (one_add_exp_pos _).ne.symm, Real.log_exp]
    ring
  · rw [max_eq_right h.le, abs_of_neg h, neg_neg]
    ring

theorem sigmoid_eq_exp_div (x : ℝ) : sigmoid x = Real.exp x / (1 + Real.exp x) := by
  unfold sigmoid
  have h1 := one_add_exp_pos x
  have h2 := one_add_exp_pos (-x)
  have key : Real.exp x * Real.exp (-x) = 1 := by
    rw [← Real.exp_add, add_neg_cancel, Real.exp_zero]
  rw [div_eq_div_iff h2.ne.symm h1.ne.symm]
  linear_combination (-1 : ℝ) * key

theorem one_sub_sigmoid (x : ℝ) : 1 - sigmoid x = 1 / (1 + Real.exp x) := by
  rw [sigmoid_eq_exp_div]
  have h1 := one_add_exp_pos x
  field_simp

theorem sigmoid_pos (x : ℝ) : 0 < sigmoid x := by
  rw [sigmoid_eq_exp_div]
  exact div_pos (Real.exp_pos x) (one_add_exp_pos x)

theorem sigmoid_lt_one (x : ℝ) : sigmoid x < 1 := by
  have h := one_sub_sigmoid x
  have : 0 < 1 / (1 + Real.exp x) := div_pos one_pos (one_add_exp_pos x)
  linarith

/-- The derivative of the fused loss with respect to the logit. -/
theorem hasDerivAt_bce_with_logits_loss (logit answ : ℝ) :
    HasDerivAt (fun x => bce_with_logits_loss x answ) (sigmoid logit - answ) logit := by
  have hfun : (fun x => bce_with_logits_loss x answ)
      = fun x => Real.log (1 + Real.exp x) - x * answ := by
    funext x
    exact bce_with_logits_loss_eq_softplus x answ
  rw [hfun]
  have h1 : HasDerivAt (fun x => 1 + Real.exp x) (Real.exp logit) logit :=
    (Real.hasDerivAt_exp logit).const_add 1
  have h2 := h1.log (one_add_exp_pos logit).ne.symm
  have h3 : HasDerivAt (fun x : ℝ => x * answ) (1 * answ) logit :=
    (hasDerivAt_id logit).mul_const answ
  have h4 := h2.sub h3
  rw [sigmoid_eq_exp_div]
  simpa using h4

/-- Claim C4. The value of `bce_with_logits_loss_delta` is `sigmoid logit - target`,
and it is the derivative of `bce_with_logits_loss` in the logit at every real logit. -/
theorem bce_with_logits_loss_delta_is_derivative (logit target : ℝ) :
    bce_with_logits_loss_delta logit target = sigmoid logit - target ∧
    bce_with_logits_loss logit target
      = max logit 0 - logit * target + Real.log (1 + Real.exp (-|logit|)) ∧
    HasDerivAt (fun x => bce_with_logits_loss x target)
      (bce_with_logits_loss_delta logit target) logit :=
  ⟨rfl, rfl, hasDerivAt_bce_with_logits_loss logit target⟩

theorem exp_nat_eq_pow (n : ℕ) : Real.exp (n : ℝ) = Real.exp 1 ^ n := by
  have h := Real.exp_nat_mul 1 n
  rwa [mul_one] at h

theorem exp_30_large : (1e12 : ℝ) < Real.exp 30 := by
  have h := exp_nat_eq_pow 30
  have e : ((30 : ℕ) : ℝ) = 30 := by norm_num
  rw [e] at h
  rw [h]
  have h1 : (2.7 : ℝ) < Real.exp 1 := lt_trans (by norm_num) Real.exp_one_gt_d9
  have h2 : (2.7 : ℝ) ^ 30 < Real.exp 1 ^ 30 := pow_lt_pow_left₀ h1 (by norm_num) (by norm_num)
  exact lt_trans (by norm_num) h2

theorem exp_27_small : Real.exp 27 < (1e12 : ℝ) - 1 := by
  have h := exp_nat_eq_pow 27
  have e : ((27 : ℕ) : ℝ) = 27 := by norm_num
  rw [e] at h
  rw [h]
  have h1 : Real.exp 1 < (2.72 : ℝ) := lt_trans Real.exp_one_lt_d9 (by norm_num)
  have h2 : Real.exp 1 ^ 27 < (2.72 : ℝ) ^ 27 :=
    pow_lt_pow_left₀ h1 (Real.exp_pos 1).le (by norm_num)
  exact lt_trans h2 (by norm_num)

theorem log_10_lt : Real.log 10 < 2.4 := by
  have h : (10 : ℝ) ^ 5 < Real.exp 12 := by
    have h := exp_nat_eq_pow 12
    have e : ((12 : ℕ) : ℝ) = 12 := by norm_num
    rw [e] at h
    rw [h]
    have h1 : (2.7 : ℝ) < Real.exp 1 := lt_trans (by norm_num) Real.exp_one_gt_d9
    have h2 : (2.7 : ℝ) ^ 12 < Real.exp 1 ^ 12 :=
      pow_lt_pow_left₀ h1 (by norm_num) (by norm_num)
    exact lt_trans (by norm_num) h2
  have h3 : Real.log ((10 : ℝ) ^ 5) < 12 := (Real.log_lt_iff_lt_exp (by positivity)).2 h
  rw [Real.log_pow] at h3
  norm_num at h3
  linarith

/-- Where the clamp of `bce` leaves the prediction as it is, `bce` is the plain
cross-entropy formula. -/
theorem bce_of_unclamped (answ pred : ℝ) (hlo : EPS ≤ pred) (hhi : pred ≤ 1 - EPS) :
    bce answ pred = -(answ * Real.log pred + (1 - answ) * Real.log (1 - pred)) := by
  have hc : clamp pred EPS (1 - EPS) = pred := by
    unfold clamp
    rw [if_neg (not_lt.2 hlo), if_neg (not_lt.2 hhi)]
  rw [bce, hc]

/-- Where the clamp is inactive the fused loss is `bce` of the sigmoid, exactly. -/
theorem bce_with_logits_loss_eq_bce (logit answ : ℝ) (hlo : EPS ≤ sigmoid logit)
    (hhi : sigmoid logit ≤ 1 - EPS) :
    bce_with_logits_loss logit answ = bce answ (sigmoid logit) := by
  have hpos := one_add_exp_pos logit
  rw [bce_of_unclamped answ _ hlo hhi, bce_with_logits_loss_eq_softplus, one_sub_sigmoid,
    sigmoid_eq_exp_div, Real.log_div (Real.exp_pos _).ne.symm hpos.ne.symm, Real.log_exp,
    Real.log_div one_ne_zero hpos.ne.symm, Real.log_one]
  ring

/-- Up to `|logit| = log (1e12 - 1)` the sigmoid stays inside `[EPS, 1 - EPS]`. -/
theorem sigmoid_unclamped (logit : ℝ) (hlogit : |logit| ≤ Real.log (1e12 - 1)) :
    EPS ≤ sigmoid logit ∧ sigmoid logit ≤ 1 - EPS := by
  have hT : Real.exp (Real.log (1e12 - 1)) = 1e12 - 1 := Real.exp_log (by norm_num)
  have hpos := one_add_exp_pos logit
  have hneg := one_add_exp_pos (-logit)
  have h1 : Real.exp logit ≤ 1e12 - 1 := by
    rw [← hT]
    exact Real.exp_le_exp.2 (le_trans (le_abs_self _) hlogit)
  have h2 : Real.exp (-logit) ≤ 1e12 - 1 := by
    rw [← hT]
    exact Real.exp_le_exp.2 (le_trans (neg_le_abs _) hlogit)
  constructor
  · unfold sigmoid EPS
    rw [le_div_iff₀ hneg]
    norm_num at h2 ⊢
    linarith
  · have h := one_sub_sigmoid logit
    have h3 : EPS ≤ 1 / (1 + Real.exp logit) := by
      unfold EPS
      rw [le_div_iff₀ hpos]
      norm_num at h1 ⊢
      linarith
    linarith

theorem log_threshold_ge_27 : (27 : ℝ) ≤ Real.log (1e12 - 1) := by
  rw [Real.le_log_iff_exp_le (by norm_num)]
  exact le_of_lt exp_27_small

/-- Claim C3, the claim at `logit = 30`, `target = 0`: the sigmoid exceeds `1 - EPS`,
`bce` clamps it, and the two losses are more than `1e-9` apart. -/
theorem bce_with_logits_loss_differs_at_30 :
    (-30 : ℝ) ≤ 30 ∧ (30 : ℝ) ≤ 30 ∧ ((0 : ℝ) = 0 ∨ (0 : ℝ) = 1) ∧
    ¬ (|bce_with_logits_loss 30 0 - bce 0 (sigmoid 30)| ≤ 1e-9) := by
  refine ⟨by norm_num, le_refl _, Or.inl rfl, ?_⟩
  have hbig := exp_30_large
  have hpos := one_add_exp_pos 30
  have hs : 1 - EPS < sigmoid 30 := by
    have h := one_sub_sigmoid 30
    have h3 : 1 / (1 + Real.exp 30) < EPS := by
      unfold EPS
      rw [div_lt_iff₀ hpos]
      norm_num at hbig ⊢
      linarith
    linarith
  have hc : clamp (sigmoid 30) EPS (1 - EPS) = 1 - EPS := by
    unfold clamp
    have hE : EPS < 1 - EPS := by unfold EPS; norm_num
    rw [if_neg (not_lt.2 (le_of_lt (lt_trans hE hs))), if_pos hs]
  have hb : bce 0 (sigmoid 30) = 12 * Real.log 10 := by
    have hE : EPS = ((10 : ℝ) ^ 12)⁻¹ := by unfold EPS; norm_num
    rw [bce, hc, sub_sub_cancel, hE, Real.log_inv, Real.log_pow]
    push_cast
    ring
  have hl : 30 ≤ bce_with_logits_loss 30 0 := by
    rw [bce_with_logits_loss_eq_softplus]
    have : Real.log (Real.exp 30) ≤ Real.log (1 + Real.exp 30) :=
      Real.log_le_log (Real.exp_pos _) (by linarith)
    rw [Real.log_exp] at this
    linarith
  have hlog := log_10_lt
  rw [hb, not_le]
  have : (1 : ℝ) < bce_with_logits_loss 30 0 - 12 * Real.log 10 := by linarith
  rw [abs_of_pos (by linarith)]
  exact lt_trans (by norm_num) this

theorem fifteen_le_log_threshold : (15 : ℝ) ≤ Real.log (1e12 - 1) :=
  le_trans (by norm_num) log_threshold_ge_27

/-- What `bce` adds when it clamps: `-log (1 - EPS)` lies in `[0, 2e-12]`. -/
theorem clamped_term_small : 0 ≤ -Real.log (1 - EPS) ∧ -Real.log (1 - EPS) ≤ 2e-12 := by
  have hpos : (0 : ℝ) < 1 - EPS := by unfold EPS; norm_num
  constructor
  · have := Real.log_nonpos hpos.le (by unfold EPS; norm_num)
    linarith
  · have h := Real.log_le_sub_one_of_pos (inv_pos.2 hpos)
    rw [Real.log_inv] at h
    have hval : (1 - EPS)⁻¹ - 1 ≤ 2e-12 := by unfold EPS; norm_num
    linarith

theorem log_one_add_range (t : ℝ) (ht : 0 < t) :
    0 ≤ Real.log (1 + t) ∧ Real.log (1 + t) ≤ t := by
  constructor
  · exact Real.log_nonneg (by linarith)
  · have := Real.log_le_sub_one_of_pos (by linarith : (0 : ℝ) < 1 + t)
    linarith

/-- Beyond the threshold `log (1e12 - 1)` the exponential of the negated logit is
below `2e-12`. -/
theorem exp_neg_small (z : ℝ) (hz : Real.log (1e12 - 1) < z) :
    1e12 - 1 < Real.exp z ∧ Real.exp (-z) ≤ 2e-12 := by
  have hT : Real.exp (Real.log (1e12 - 1)) = 1e12 - 1 := Real.exp_log (by norm_num)
  have h1 : 1e12 - 1 < Real.exp z := by
    rw [← hT]
    exact Real.exp_lt_exp.2 hz
  refine ⟨h1, ?_⟩
  rw [Real.exp_neg]
  have hpos : (0 : ℝ) < 1e12 - 1 := by norm_num
  have h2 : (Real.exp z)⁻¹ ≤ (1e12 - 1 : ℝ)⁻¹ := inv_anti₀ hpos h1.le
  have h3 : (1e12 - 1 : ℝ)⁻¹ ≤ 2e-12 := by norm_num
  linarith

theorem exp_17_large : (2e7 : ℝ) < Real.exp 17 := by
  have h := exp_nat_eq_pow 17
  have e : ((17 : ℕ) : ℝ) = 17 := by norm_num
  rw [e] at h
  rw [h]
  have h1 : (2.7 : ℝ) < Real.exp 1 := lt_trans (by norm_num) Real.exp_one_gt_d9
  have h2 : (2.7 : ℝ) ^ 17 < Real.exp 1 ^ 17 := pow_lt_pow_left₀ h1 (by norm_num) (by norm_num)
  exact lt_trans (by norm_num) h2

/-- The resolution of `bce` at the target 0 for large logits. Below 1 the doubles are
`2 ^ (-53)` apart; from logit 17 up to the clamp threshold, two predictions that far
apart have `bce` values more than `1e-9` apart, so the tolerance `1e-9` is finer than
what a prediction stored as a double can resolve there. -/
theorem bce_resolution_at_large_logit (logit : ℝ) (h17 : 17 ≤ logit)
    (hT : logit ≤ Real.log (1e12 - 1)) :
    1e-9 < bce 0 (sigmoid logit) - bce 0 (sigmoid logit - 2 ^ (-53 : ℤ)) := by
  have hδ : (2 : ℝ) ^ (-53 : ℤ) = 1 / 9007199254740992 := by norm_num
  have hδ1 : (1e-16 : ℝ) ≤ 2 ^ (-53 : ℤ) := by rw [hδ]; norm_num
  have hδ2 : (2 : ℝ) ^ (-53 : ℤ) ≤ 2e-16 := by rw [hδ]; norm_num
  have hpos : 0 < logit := by linarith
  obtain ⟨u1, u2⟩ := sigmoid_unclamped logit (by rw [abs_of_pos hpos]; exact hT)
  have hE := one_add_exp_pos logit
  have hu := one_sub_sigmoid logit
  have hupos : 0 < 1 / (1 + Real.exp logit) := div_pos one_pos hE
  have hbig : (2e7 : ℝ) < Real.exp logit :=
    lt_of_lt_of_le exp_17_large (Real.exp_le_exp.2 h17)
  have husmall : 1 / (1 + Real.exp logit) ≤ 1e-7 := by
    rw [div_le_iff₀ hE]
    norm_num at hbig ⊢
    linarith
  have hEPS : EPS = 1e-12 := rfl
  have hb1 := bce_of_unclamped 0 (sigmoid logit) u1 u2
  have hb2 := bce_of_unclamped 0 (sigmoid logit - 2 ^ (-53 : ℤ))
    (by
      have hs : sigmoid logit = 1 - 1 / (1 + Real.exp logit) := by rw [← hu]; ring
      rw [hEPS, hs]
      have h3 : (1e-12 : ℝ) ≤ 1 - 1e-7 - 2e-16 := by norm_num
      linarith)
    (by linarith [show (0 : ℝ) ≤ 2 ^ (-53 : ℤ) from by positivity])
  rw [hb1, hb2]
  have hx : 1 - (sigmoid logit - 2 ^ (-53 : ℤ))
      = 1 / (1 + Real.exp logit) + 2 ^ (-53 : ℤ) := by rw [← hu]; ring
  rw [hx, hu]
  have hy : 0 < 1 / (1 + Real.exp logit) + 2 ^ (-53 : ℤ) := by positivity
  have hq : (1 / (1 + Real.exp logit)) / (1 / (1 + Real.exp logit) + 2 ^ (-53 : ℤ))
      ≤ 1 - 2e-9 / (1 + 2e-9) := by
    rw [div_le_iff₀ hy]
    have hprod : (2e7 : ℝ) * (1 / (1 + Real.exp logit)) ≤ 1 := by
      rw [mul_one_div, div_le_one hE]
      linarith
    norm_num at hprod ⊢
    nlinarith
  have hlog := Real.log_le_sub_one_of_pos (div_pos hupos hy)
  rw [Real.log_div hupos.ne.symm hy.ne.symm] at hlog
  have hval : (1 : ℝ) - 2e-9 / (1 + 2e-9) - 1 < -1e-9 := by norm_num
  linarith

/-- Claim C3, amended. For every logit in `[-30, 30]` and every target in `{0, 1}`
with `logit ≤ 15` when the target is 0 and `logit ≥ -log (1e12 - 1)` (about -27.63)
when the target is 1, the fused loss and `bce` of the sigmoid are within `1e-9` of each
other. For the target 1 the clamp of `bce` from above costs less than `2e-12`; below
`-log (1e12 - 1)` the clamp from below separates the two losses. For the target 0 the
range ends at 15, before the clamp: from about 15.75 on, the difference `1 - pred` that
`bce` takes is a difference of nearly equal doubles and the two computed losses are
more than `1e-9` apart, although the functions agree as real functions. -/
theorem bce_with_logits_loss_close_to_bce (logit target : ℝ)
    (_hlo : -30 ≤ logit) (_hhi : logit ≤ 30) (htarget : target = 0 ∨ target = 1)
    (h0 : target = 0 → logit ≤ 15) (h1 : target = 1 → -Real.log (1e12 - 1) ≤ logit) :
    |bce_with_logits_loss logit target - bce target (sigmoid logit)| ≤ 1e-9 := by
  by_cases hin : |logit| ≤ Real.log (1e12 - 1)
  · obtain ⟨u1, u2⟩ := sigmoid_unclamped logit hin
    rw [bce_with_logits_loss_eq_bce logit target u1 u2, sub_self, abs_zero]
    norm_num
  · have hout : Real.log (1e12 - 1) < |logit| := not_le.1 hin
    have hE : EPS < 1 - EPS := by unfold EPS; norm_num
    obtain ⟨c0, c1⟩ := clamped_term_small
    rcases htarget with ht | ht
    · -- target 0: the logit lies below the negated threshold
      have h15 := h0 ht
      have hneg : logit < 0 := by
        by_contra hge
        rw [abs_of_nonneg (not_lt.1 hge)] at hout
        have := fifteen_le_log_threshold
        linarith
      rw [abs_of_neg hneg] at hout
      obtain ⟨e1, e2⟩ := exp_neg_small (-logit) hout
      rw [neg_neg] at e2
      have hs : sigmoid logit < EPS := by
        unfold sigmoid EPS
        rw [div_lt_iff₀ (one_add_exp_pos (-logit))]
        norm_num at e1 ⊢
        linarith
      have hc : clamp (sigmoid logit) EPS (1 - EPS) = EPS := by
        unfold clamp
        rw [if_pos hs]
      have hb : bce target (sigmoid logit) = -Real.log (1 - EPS) := by
        rw [bce, hc, ht]
        ring
      have hl : bce_with_logits_loss logit target = Real.log (1 + Real.exp logit) := by
        rw [bce_with_logits_loss_eq_softplus, ht]
        ring
      obtain ⟨l0, l1⟩ := log_one_add_range (Real.exp logit) (Real.exp_pos _)
      rw [hb, hl, abs_le]
      constructor <;> norm_num at c1 e2 ⊢ <;> linarith
    · -- target 1: the logit lies above the threshold
      have hT := h1 ht
      have hposl : 0 < logit := by
        by_contra hle
        rw [abs_of_nonpos (not_lt.1 hle)] at hout
        linarith
      rw [abs_of_pos hposl] at hout
      obtain ⟨e1, e2⟩ := exp_neg_small logit hout
      have hs : 1 - EPS < sigmoid logit := by
        have h := one_sub_sigmoid logit
        have h3 : 1 / (1 + Real.exp logit) < EPS := by
          unfold EPS
          rw [div_lt_iff₀ (one_add_exp_pos logit)]
          norm_num at e1 ⊢
          linarith
        linarith
      have hc : clamp (sigmoid logit) EPS (1 - EPS) = 1 - EPS := by
        unfold clamp
        rw [if_neg (not_lt.2 (le_of_lt (lt_trans hE hs))), if_pos hs]
      have hb : bce target (sigmoid logit) = -Real.log (1 - EPS) := by
        rw [bce, hc, ht]
        ring
      have hl : bce_with_logits_loss logit target = Real.log (1 + Real.exp (-logit)) := by
        unfold bce_with_logits_loss
        rw [max_eq_left hposl.le, abs_of_pos hposl, ht]
        ring
      obtain ⟨l0, l1⟩ := log_one_add_range (Real.exp (-logit)) (Real.exp_pos _)
      rw [hb, hl, abs_le]
      constructor <;> norm_num at c1 e2 ⊢ <;> linarith

theorem bce_with_logits_loss_close_to_bce_witness :
    |bce_with_logits_loss 30 1 - bce 1 (sigmoid 30)| ≤ 1e-9 :=
  bce_with_logits_loss_close_to_bce 30 1 (by norm_num) (by norm_num) (Or.inr rfl)
    (fun h => absurd h (by norm_num))
    (fun _ => le_trans (neg_nonpos.2 (Real.log_nonneg (by norm_num))) (by norm_num))

end LossFacts

/-! ## Theorems: lists as index functions, loops -/

section Tables

theorem tab_length {β : Type} (n : Nat) (f : Nat → β) : (tab n f).length = n := by
  simp [tab]

theorem tab_getElem? {β : Type} (n : Nat) (f : Nat → β) (i : Nat) :
    (tab n f)[i]? = if i < n then some (f i) else none := by
  unfold tab
  by_cases h : i < n
  · simp [h, List.getElem?_range h]
  · simp [h, List.getElem?_eq_none (by simpa using h : (List.range n).length ≤ i)]

theorem tab_congr {β : Type} (n : Nat) (f g : Nat → β) (h : ∀ i, i < n → f i = g i) :
    tab n f = tab n g := by
  apply List.ext_getElem?
  intro i
  rw [tab_getElem?, tab_getElem?]
  by_cases hi : i < n
  · simp [hi, h i hi]
  · simp [hi]

theorem tab_succ {β : Type} (n : Nat) (f : Nat → β) :
    tab (n + 1) f = f 0 :: tab n (fun i => f (i + 1)) := by
  simp [tab, List.range_succ_eq_map, List.map_map, Function.comp_def]

theorem tab_two {β : Type} (f : Nat → β) : tab 2 f = [f 0, f 1] := by
  rw [tab_succ, tab_succ]
  simp [tab]

theorem at_index_tab {β : Type} (n : Nat) (f : Nat → β) (i : Nat) (h : i < n) :
    at_index (tab n f) i = .ok (f i) := by
  simp [at_index, tab_getElem?, h]

theorem assign_tab {β : Type} (n : Nat) (f : Nat → β) (i : Nat) (v : β) (h : i < n) :
    assign (tab n f) i v = .ok (tab n (fun j => if j = i then v else f j)) := by
  unfold assign
  rw [if_pos (by rw [tab_length]; exact h)]
  congr 1
  apply List.ext_getElem?
  intro j
  rw [List.getElem?_set, tab_getElem?, tab_getElem?, tab_length]
  by_cases hj : j = i
  · subst hj
    simp [h]
  · have hj2 : ¬ i = j := fun e => hj e.symm
    simp [hj, hj2]

theorem at_index2_tab {β : Type} (m n : Nat) (f : Nat → Nat → β) (i j : Nat) (hi : i < m)
    (hj : j < n) : at_index2 (tab m (fun i => tab n (f i))) i j = .ok (f i j) := by
  simp [at_index2, at_index_tab _ _ i hi, at_index_tab _ _ j hj]

theorem assign2_tab {β : Type} (m n : Nat) (f : Nat → Nat → β) (i j : Nat) (v : β)
    (hi : i < m) (hj : j < n) :
    assign2 (tab m (fun i => tab n (f i))) i j v
      = .ok (tab m (fun a => tab n (fun b => if a = i ∧ b = j then v else f a b))) := by
  simp only [assign2, at_index_tab _ _ i hi, assign_tab _ _ j v hj, assign_tab _ _ i _ hi]
  congr 1
  apply tab_congr
  intro a _
  by_cases ha : a = i
  · subst ha
    simp
  · simp [ha]

theorem replicate_eq_tab {β : Type} (n : Nat) (c : β) :
    List.replicate n c = tab n (fun _ => c) := by
  apply List.ext_getElem?
  intro i
  rw [List.getElem?_replicate, tab_getElem?]

theorem eq_tab_of_length {β : Type} (xs : List β) (n : Nat) (d : β) (h : xs.length = n) :
    xs = tab n (fun j => xs.getD j d) := by
  apply List.ext_getElem?
  intro i
  rw [tab_getElem?]
  by_cases hi : i < n
  · have hi2 : i < xs.length := by omega
    simp [hi, List.getD, List.getElem?_eq_getElem hi2]
  · have : xs.length ≤ i := by omega
    simp [hi, List.getElem?_eq_none this]

theorem getD_tab {β : Type} (n : Nat) (f : Nat → β) (i : Nat) (d : β) (h : i < n) :
    (tab n f).getD i d = f i := by
  simp [List.getD, tab_getElem?, h]

/-- A loop whose state after `k` rounds is `F k`. -/
theorem for_loop_closed {σ : Type} (body : Nat → σ → Except Failure σ) (F : Nat → σ) :
    ∀ (count first : Nat),
      (∀ k, first ≤ k → k < first + count → body k (F k) = .ok (F (k + 1))) →
      for_loop body first count (F first) = .ok (F (first + count))
  | 0, first, _ => by simp [for_loop]
  | count + 1, first, hstep => by
    have h0 := hstep first (le_refl _) (by omega)
    have ih := for_loop_closed body F count (first + 1)
      (fun k hk1 hk2 => hstep k (by omega) (by omega))
    simp only [for_loop, h0, ih]
    congr 2
    omega

theorem inner_product_tab (n : Nat) :
    ∀ (f g : Nat → ℝ) (init : ℝ),
      inner_product (tab n f) (tab n g) init
        = .ok (init + ∑ i in Finset.range n, f i * g i) := by
  induction n with
  | zero => intro f g init; simp [tab, inner_product]
  | succ n ih =>
    intro f g init
    rw [tab_succ, tab_succ, inner_product, ih, Finset.sum_range_succ']
    congr 1
    ring

theorem vec_dot_tab (n : Nat) (f g : Nat → ℝ) :
    vec_dot (tab n f) (tab n g) = .ok (∑ i in Finset.range n, f i * g i) := by
  rw [vec_dot_of_length_eq _ _ (by rw [tab_length, tab_length]), inner_product_tab, zero_add]

theorem vec_dot_pair (f : Nat → ℝ) (x : ℝ × ℝ) :
    vec_dot (tab 2 f) [x.1, x.2] = .ok (f 0 * x.1 + f 1 * x.2) := by
  simp [tab_two, vec_dot, inner_product]

theorem shaped_eq_toNetwork (net : Network) (h : Nat) (hs : Shaped net h) :
    net = net.toParams.toNetwork h := by
  obtain ⟨h1, h2, h3, h4, h5, h6⟩ := hs
  have e1 : net.weight_hidd = tab h (fun i => tab input_neuron_count (entry net.weight_hidd i)) := by
    rw [eq_tab_of_length net.weight_hidd h [] h1]
    apply tab_congr
    intro i hi
    have hlen : ((tab h fun j => net.weight_hidd.getD j []).getD i []).length
        = input_neuron_count := by
      rw [← eq_tab_of_length net.weight_hidd h [] h1]
      have hi2 : i < net.weight_hidd.length := by omega
      apply h2
      simp [List.getD, List.getElem?_eq_getElem hi2]
    rw [← eq_tab_of_length net.weight_hidd h [] h1]
    rw [← eq_tab_of_length net.weight_hidd h [] h1] at hlen
    exact eq_tab_of_length _ _ 0 hlen
  have e2 : net.bias_hidd = tab h (fun i => net.bias_hidd.getD i 0) :=
    eq_tab_of_length _ _ 0 h3
  have e3 : net.weight_outp = [tab h (entry net.weight_outp 0)] := by
    match hw : net.weight_outp, h4, h5 with
    | [row], _, h5 =>
      have hrow : row.length = h := h5 row (by simp)
      have : entry [row] 0 = fun j => row.getD j 0 := by
        funext j
        simp [entry]
      rw [this, ← eq_tab_of_length row h 0 hrow]
    | [], h4, _ => simp [output_neuron_count] at h4
    | _ :: _ :: _, h4, _ => simp [output_neuron_count] at h4
  have e4 : net.bias_outp = [net.bias_outp.getD 0 0] := by
    match hb : net.bias_outp, h6 with
    | [b], _ => simp
    | [], h6 => simp [output_neuron_count] at h6
    | _ :: _ :: _, h6 => simp [output_neuron_count] at h6
  cases net with
  | mk wh bh wo bo =>
    simp only [Params.toNetwork, Network.toParams] at *
    rw [← e1, ← e2, ← e3, ← e4]

theorem shaped_toNetwork (h : Nat) (p : Params) : Shaped (p.toNetwork h) h := by
  refine ⟨tab_length _ _, ?_, tab_length _ _, rfl, ?_, rfl⟩
  · intro row hrow
    simp only [Params.toNetwork, tab, List.mem_map, List.mem_range] at hrow
    obtain ⟨i, _, rfl⟩ := hrow
    simp
  · intro row hrow
    simp only [Params.toNetwork, List.mem_singleton] at hrow
    rw [hrow, tab_length]

end Tables

/-! ## Theorems: the passes of one sample in closed form -/

section Passes

theorem hidden_loop_closed (h : Nat) (p : Params) (x : ℝ × ℝ) :
    for_loop (hidden_body (p.toNetwork h) [x.1, x.2]) 0 h
        { logit_hidd := List.replicate h 0, output_hidd := List.replicate h 0 }
      = .ok { logit_hidd := tab h (hidden_logit p x),
              output_hidd := tab h (fun i => tanh (hidden_logit p x i)) } := by
  have key := for_loop_closed (hidden_body (p.toNetwork h) [x.1, x.2])
    (fun k => { logit_hidd := tab h (fun i => if i < k then hidden_logit p x i else 0),
                output_hidd := tab h (fun i => if i < k then tanh (hidden_logit p x i) else 0) })
    h 0 ?_
  · simp only [Nat.not_lt_zero, if_false, zero_add, ← replicate_eq_tab] at key
    rw [key]
    congr 2
    · exact tab_congr _ _ _ (fun i hi => by simp [hi])
    · exact tab_congr _ _ _ (fun i hi => by simp [hi])
  · intro k _ hk
    have hk : k < h := by omega
    simp only [hidden_body, Params.toNetwork, input_neuron_count, bind, Except.bind, pure,
      Except.pure, at_index_tab _ _ k hk, vec_dot_pair, assign_tab _ _ k _ hk]
    simp only [if_true]
    congr 2
    · apply tab_congr
      intro i _
      by_cases hik : i = k
      · subst hik
        simp [hidden_logit]
      · have : i < k + 1 ↔ i < k := by omega
        simp [hik, this]
    · apply tab_congr
      intro i _
      by_cases hik : i = k
      · subst hik
        simp [hidden_logit]
      · have : i < k + 1 ↔ i < k := by omega
        simp [hik, this]

theorem forward_pass_closed (h : Nat) (p : Params) (x : ℝ × ℝ) (target : ℝ) :
    forward_pass (p.toNetwork h) h [x.1, x.2] target = .ok (forward_of h p x target) := by
  unfold forward_pass
  rw [hidden_loop_closed]
  simp only [bind, Except.bind, pure, Except.pure, Params.toNetwork, at_index, vec_dot_tab,
    List.getElem?_cons_zero, forward_of, sample_loss, output_logit]

theorem map_tab {β γ : Type} (n : Nat) (f : Nat → β) (g : β → γ) :
    (tab n f).map g = tab n (fun i => g (f i)) := by
  simp [tab, List.map_map, Function.comp_def]

theorem at_index_cons_zero {β : Type} (a : β) (as : List β) :
    at_index (a :: as) 0 = .ok a := by
  simp [at_index]

theorem delta_loop_closed (h : Nat) (p : Params) (x : ℝ × ℝ) (target delta_outp : ℝ) :
    for_loop (delta_hidd_body (p.toNetwork h) (forward_of h p x target) delta_outp) 0 h
        (List.replicate h 0)
      = .ok (tab h (fun i => (p.outp i * delta_outp) * tanh_derivative (hidden_logit p x i))) := by
  have key := for_loop_closed
    (delta_hidd_body (p.toNetwork h) (forward_of h p x target) delta_outp)
    (fun k => tab h (fun i =>
      if i < k then (p.outp i * delta_outp) * tanh_derivative (hidden_logit p x i) else 0))
    h 0 ?_
  · simp only [Nat.not_lt_zero, if_false, zero_add, ← replicate_eq_tab] at key
    rw [key]
    congr 1
    exact tab_congr _ _ _ (fun i hi => by simp [hi])
  · intro k _ hk
    have hk : k < h := by omega
    simp only [delta_hidd_body, Params.toNetwork, forward_of, at_index2, at_index_cons_zero,
      bind, Except.bind, at_index_tab _ _ k hk, assign_tab _ _ k _ hk]
    congr 1
    apply tab_congr
    intro i _
    by_cases hik : i = k
    · subst hik
      simp
    · have : i < k + 1 ↔ i < k := by omega
      simp [hik, this]

theorem backward_closed (h : Nat) (p : Params) (x : ℝ × ℝ) (target : ℝ) :
    backward (p.toNetwork h) h [x.1, x.2] target (forward_of h p x target)
      = .ok ((gradients_of h p x target).toGradients h) := by
  simp only [backward, delta_loop_closed, vec_scale_eq, bind, Except.bind, pure, Except.pure]
  simp only [Params.toGradients, gradients_of, weights_gradient, map_tab, forward_of,
    input_neuron_count]
  congr 2

theorem accumulate_entry_loop_closed (h : Nat) (g : Params) (m : Nat → Nat → ℝ) (i : Nat)
    (hi : i < h) :
    for_loop (accumulate_entry (g.toGradients h) i) 0 input_neuron_count
        (tab h (fun a => tab input_neuron_count (m a)))
      = .ok (tab h (fun a => tab input_neuron_count
          (fun b => if a = i then m a b + g.hidd a b else m a b))) := by
  have key := for_loop_closed (accumulate_entry (g.toGradients h) i)
    (fun j => tab h (fun a => tab input_neuron_count
      (fun b => if a = i ∧ b < j then m a b + g.hidd a b else m a b)))
    input_neuron_count 0 ?_
  · simp only [Nat.not_lt_zero, and_false, if_false, zero_add] at key
    rw [key]
    congr 1
    apply tab_congr
    intro a _
    apply tab_congr
    intro b hb
    simp [hb]
  · intro j _ hj
    have hj : j < input_neuron_count := by omega
    simp only [accumulate_entry, Params.toGradients, bind, Except.bind,
      at_index2_tab _ _ _ i j hi hj, assign2_tab _ _ _ i j _ hi hj]
    congr 1
    apply tab_congr
    intro a _
    apply tab_congr
    intro b _
    by_cases ha : a = i
    · by_cases hb : b = j
      · subst ha hb
        simp
      · have : b < j + 1 ↔ b < j := by omega
        simp [ha, hb, this]
    · simp [ha]

theorem accumulate_loop_closed (h : Nat) (g a : Params) (loss : ℝ) :
    for_loop (accumulate_body (g.toGradients h)) 0 h (a.toAccumulators h loss)
      = .ok { (a.add g).toAccumulators h loss with acc_gradient_bias_outp := a.bias_outp } := by
  have key := for_loop_closed (accumulate_body (g.toGradients h))
    (fun k =>
      { total_loss := loss,
        acc_gradient_hidd := tab h (fun i => tab input_neuron_count
          (fun j => if i < k then a.hidd i j + g.hidd i j else a.hidd i j)),
        acc_gradient_bias_hidd :=
          tab h (fun i => if i < k then a.bias_hidd i + g.bias_hidd i else a.bias_hidd i),
        acc_gradient_outp := tab h (fun i => if i < k then a.outp i + g.outp i else a.outp i),
        acc_gradient_bias_outp := a.bias_outp })
    h 0 ?_
  · simp only [Nat.not_lt_zero, if_false, zero_add] at key
    rw [Params.toAccumulators, key]
    simp only [Params.toAccumulators, Params.add]
    congr 2
    · apply tab_congr
      intro i hi
      simp [hi]
    · exact tab_congr _ _ _ (fun i hi => by simp [hi])
    · exact tab_congr _ _ _ (fun i hi => by simp [hi])
  · intro k _ hk
    have hk : k < h := by omega
    simp only [accumulate_body, accumulate_entry_loop_closed h g _ k hk, bind, Except.bind,
      pure, Except.pure]
    simp only [Params.toGradients, at_index_tab _ _ k hk, assign_tab _ _ k _ hk]
    congr 2
    · apply tab_congr
      intro i _
      apply tab_congr
      intro j _
      by_cases hik : i = k
      · subst hik
        simp
      · have : i < k + 1 ↔ i < k := by omega
        simp [hik, this]
    · apply tab_congr
      intro i _
      by_cases hik : i = k
      · subst hik
        simp
      · have : i < k + 1 ↔ i < k := by omega
        simp [hik, this]
    · apply tab_congr
      intro i _
      by_cases hik : i = k
      · subst hik
        simp
      · have : i < k + 1 ↔ i < k := by omega
        simp [hik, this]

theorem at_index_batch (n : Nat) (hn : n < 4) :
    at_index batch n = .ok (sample_input n) ∧ at_index batch_answ n = .ok (sample_target n) := by
  interval_cases n <;> simp [at_index, batch, batch_answ, sample_input, sample_target]

theorem print_due_returns (epoch print_frequency : Nat) (h : print_frequency ≠ 0) :
    print_due epoch print_frequency = .ok (epoch % print_frequency == 0 || epoch == 1) := by
  simp [print_due, h]

theorem batch_size : (batch.length : ℝ) = 4 := by
  simp [batch]

theorem sample_body_closed (h epoch print_frequency : Nat) (hpf : print_frequency ≠ 0)
    (p a : Params) (loss : ℝ) (n : Nat) (hn : n < 4) :
    sample_body (p.toNetwork h) h epoch print_frequency n (a.toAccumulators h loss)
      = .ok ((a.add (gradients_of h p (sample_input n) (sample_target n))).toAccumulators h
          (loss + sample_loss h p (sample_input n) (sample_target n))) := by
  obtain ⟨hb, ht⟩ := at_index_batch n hn
  simp only [sample_body, hb, ht, bind, Except.bind, pure, Except.pure, forward_pass_closed,
    backward_closed, print_due_returns epoch print_frequency hpf]
  have hacc : ({ a.toAccumulators h loss with
      total_loss := (a.toAccumulators h loss).total_loss
        + (forward_of h p (sample_input n) (sample_target n)).loss } : Accumulators)
      = a.toAccumulators h (loss + sample_loss h p (sample_input n) (sample_target n)) := rfl
  rw [hacc, accumulate_loop_closed]
  rfl

theorem sample_loop_closed (h epoch print_frequency : Nat) (hpf : print_frequency ≠ 0)
    (p : Params) :
    for_loop (sample_body (p.toNetwork h) h epoch print_frequency) 0 batch.length
        (fresh_accumulators h)
      = .ok ((accumulated h p 4).1.toAccumulators h (accumulated h p 4).2) := by
  have key := for_loop_closed (sample_body (p.toNetwork h) h epoch print_frequency)
    (fun k => (accumulated h p k).1.toAccumulators h (accumulated h p k).2) 4 0 ?_
  · have h0 : (accumulated h p 0).1.toAccumulators h (accumulated h p 0).2
        = fresh_accumulators h := by
      simp [accumulated, Params.toAccumulators, Params.zero, fresh_accumulators,
        replicate_eq_tab]
    rw [h0] at key
    exact key
  · intro k _ hk
    exact sample_body_closed h epoch print_frequency hpf p _ _ k (by omega)

theorem update_entry_loop_closed (learning_rate : ℝ) (h : Nat) (a : Params) (loss : ℝ)
    (m : Nat → Nat → ℝ) (i : Nat) (hi : i < h) :
    for_loop (update_entry learning_rate (a.toAccumulators h loss) i) 0 input_neuron_count
        (tab h (fun r => tab input_neuron_count (m r)))
      = .ok (tab h (fun r => tab input_neuron_count
          (fun c => if r = i then m r c - learning_rate * (a.hidd r c / 4) else m r c))) := by
  have key := for_loop_closed (update_entry learning_rate (a.toAccumulators h loss) i)
    (fun j => tab h (fun r => tab input_neuron_count
      (fun c => if r = i ∧ c < j then m r c - learning_rate * (a.hidd r c / 4) else m r c)))
    input_neuron_count 0 ?_
  · simp only [Nat.not_lt_zero, and_false, if_false, zero_add] at key
    rw [key]
    congr 1
    apply tab_congr
    intro r _
    apply tab_congr
    intro c hc
    simp [hc]
  · intro j _ hj
    have hj : j < input_neuron_count := by omega
    simp only [update_entry, Params.toAccumulators, bind, Except.bind,
      at_index2_tab _ _ _ i j hi hj, assign2_tab _ _ _ i j _ hi hj, batch_size]
    congr 1
    apply tab_congr
    intro r _
    apply tab_congr
    intro c _
    by_cases hr : r = i
    · by_cases hc : c = j
      · subst hr hc
        simp
      · have : c < j + 1 ↔ c < j := by omega
        simp [hr, hc, this]
    · simp [hr]

theorem assign2_single (n : Nat) (f : Nat → ℝ) (i : Nat) (v : ℝ) (hi : i < n) :
    assign2 [tab n f] 0 i v = .ok [tab n (fun j => if j = i then v else f j)] := by
  simp only [assign2, at_index_cons_zero, assign_tab _ _ i v hi]
  simp [assign]

theorem update_loop_closed (learning_rate : ℝ) (h : Nat) (p a : Params) (loss : ℝ) :
    for_loop (update_body learning_rate (a.toAccumulators h loss)) 0 h (p.toNetwork h)
      = .ok { (Params.descend learning_rate p a).toNetwork h with bias_outp := [p.bias_outp] } := by
  have key := for_loop_closed (update_body learning_rate (a.toAccumulators h loss))
    (fun k =>
      { weight_hidd := tab h (fun i => tab input_neuron_count
          (fun j => if i < k then p.hidd i j - learning_rate * (a.hidd i j / 4) else p.hidd i j)),
        bias_hidd := tab h (fun i =>
          if i < k then p.bias_hidd i - learning_rate * (a.bias_hidd i / 4) else p.bias_hidd i),
        weight_outp := [tab h (fun i =>
          if i < k then p.outp i - learning_rate * (a.outp i / 4) else p.outp i)],
        bias_outp := [p.bias_outp] })
    h 0 ?_
  · simp only [Nat.not_lt_zero, if_false, zero_add] at key
    rw [Params.toNetwork, key]
    simp only [Params.toNetwork, Params.descend]
    congr 2
    · apply tab_congr
      intro i hi
      simp [hi]
    · exact tab_congr _ _ _ (fun i hi => by simp [hi])
    · congr 1
      exact tab_congr _ _ _ (fun i hi => by simp [hi])
  · intro k _ hk
    have hk : k < h := by omega
    simp only [update_body, update_entry_loop_closed learning_rate h a loss _ k hk, bind,
      Except.bind, pure, Except.pure]
    simp only [Params.toAccumulators, at_index2, at_index_cons_zero, at_index_tab _ _ k hk,
      assign_tab _ _ k _ hk, assign2_single _ _ k _ hk, batch_size]
    congr 2
    · apply tab_congr
      intro i _
      apply tab_congr
      intro j _
      by_cases hik : i = k
      · subst hik
        simp
      · have : i < k + 1 ↔ i < k := by omega
        simp [hik, this]
    · apply tab_congr
      intro i _
      by_cases hik : i = k
      · subst hik
        simp
      · have : i < k + 1 ↔ i < k := by omega
        simp [hik, this]
    · congr 1
      apply tab_congr
      intro i _
      by_cases hik : i = k
      · subst hik
        simp
      · have : i < k + 1 ↔ i < k := by omega
        simp [hik, this]

/-- One epoch in closed form: it returns, the new parameters are `epoch_of`, and the
accumulated loss is the sum of the four sample losses at the old parameters. -/
theorem train_epoch_closed (learning_rate : ℝ) (h epoch print_frequency : Nat)
    (hpf : print_frequency ≠ 0) (p : Params) :
    train_epoch learning_rate h epoch print_frequency (p.toNetwork h)
      = .ok ((epoch_of learning_rate h p).toNetwork h, (accumulated h p 4).2) := by
  simp only [train_epoch, sample_loop_closed h epoch print_frequency hpf p, bind, Except.bind,
    pure, Except.pure, update_loop_closed, at_index_cons_zero, assign, batch_size]
  simp [Params.toNetwork, Params.descend, Params.toAccumulators, epoch_of]

end Passes


/-! ## Theorems: the gradients are the partial derivatives of the loss -/

section Derivatives

theorem hasDerivAt_tanh (x : ℝ) : HasDerivAt tanh (tanh_derivative x) x := by
  have hc : Real.cosh x ≠ 0 := (Real.cosh_pos x).ne.symm
  have h := (Real.hasDerivAt_sinh x).div (Real.hasDerivAt_cosh x) hc
  have hfun : (fun y => Real.sinh y / Real.cosh y) = tanh := by
    funext y
    rw [tanh, Real.tanh_eq_sinh_div_cosh]
  rw [hfun] at h
  have hval : tanh_derivative x
      = (Real.cosh x * Real.cosh x - Real.sinh x * Real.sinh x) / Real.cosh x ^ 2 := by
    rw [tanh_derivative, Real.tanh_eq_sinh_div_cosh, eq_div_iff (pow_ne_zero 2 hc)]
    field_simp
    left
    ring
  rw [hval]
  exact h

theorem set_tab {β : Type} (n : Nat) (f : Nat → β) (i : Nat) (v : β) :
    (tab n f).set i v = tab n (fun a => if a = i then v else f a) := by
  apply List.ext_getElem?
  intro a
  rw [List.getElem?_set, tab_getElem?, tab_getElem?, tab_length]
  by_cases ha : a = i
  · subst ha
    by_cases hn : a < n <;> simp [hn]
  · have ha2 : ¬ i = a := fun e => ha e.symm
    simp [ha, ha2]

theorem with_weight_hidd_toNetwork (h : Nat) (p : Params) (i j : Nat) (t : ℝ) (hi : i < h) :
    (p.toNetwork h).with_weight_hidd i j t = (p.with_hidd i j t).toNetwork h := by
  simp only [Network.with_weight_hidd, Params.toNetwork, Params.with_hidd,
    getD_tab _ _ i [] hi, set_tab]
  congr 1
  apply tab_congr
  intro a _
  by_cases ha : a = i
  · subst ha
    simp
  · simp [ha]

theorem with_bias_hidd_toNetwork (h : Nat) (p : Params) (i : Nat) (t : ℝ) :
    (p.toNetwork h).with_bias_hidd i t = (p.with_bias_hidd i t).toNetwork h := by
  simp only [Network.with_bias_hidd, Params.toNetwork, Params.with_bias_hidd, set_tab]

theorem with_weight_outp_toNetwork (h : Nat) (p : Params) (i : Nat) (t : ℝ) :
    (p.toNetwork h).with_weight_outp i t = (p.with_outp i t).toNetwork h := by
  simp [Network.with_weight_outp, Params.toNetwork, Params.with_outp, set_tab]

theorem with_bias_outp_toNetwork (h : Nat) (p : Params) (t : ℝ) :
    (p.toNetwork h).with_bias_outp t = (p.with_bias_outp t).toNetwork h := by
  simp [Network.with_bias_outp, Params.toNetwork, Params.with_bias_outp]

theorem loss_of_toNetwork (h : Nat) (p : Params) (x : ℝ × ℝ) (target : ℝ) :
    loss_of (p.toNetwork h) h x target = .ok (sample_loss h p x target) := by
  simp [loss_of, forward_pass_closed, forward_of]

/-- The chain rule through the fused loss. -/
theorem hasDerivAt_sample_loss (h : Nat) (P : ℝ → Params) (x : ℝ × ℝ) (target t0 d : ℝ)
    (hd : HasDerivAt (fun t => output_logit h (P t) x) d t0) :
    HasDerivAt (fun t => sample_loss h (P t) x target)
      (bce_with_logits_loss_delta (output_logit h (P t0) x) target * d) t0 :=
  (hasDerivAt_bce_with_logits_loss (output_logit h (P t0) x) target).comp t0 hd

theorem hidden_logit_with_hidd (p : Params) (x : ℝ × ℝ) (i j a : Nat) (t : ℝ) (hj : j < 2) :
    hidden_logit (p.with_hidd i j t) x a
      = if a = i then hidden_logit p x i + (t - p.hidd i j) * coordinate x j
        else hidden_logit p x a := by
  by_cases ha : a = i
  · subst ha
    interval_cases j <;> simp [hidden_logit, Params.with_hidd, coordinate] <;> ring
  · simp [hidden_logit, Params.with_hidd, ha]

theorem hidden_logit_with_bias_hidd (p : Params) (x : ℝ × ℝ) (i a : Nat) (t : ℝ) :
    hidden_logit (p.with_bias_hidd i t) x a
      = if a = i then hidden_logit p x i + (t - p.bias_hidd i) else hidden_logit p x a := by
  by_cases ha : a = i
  · subst ha
    simp [hidden_logit, Params.with_bias_hidd]
  · simp [hidden_logit, Params.with_bias_hidd, ha]

/-- The derivative of the output logit in the weight `weight_hidd[i][j]`, and more
generally along `t ↦ hidden logit i + (t - c) * k`. -/
theorem hasDerivAt_output_logit_hidden (h : Nat) (p : Params) (x : ℝ × ℝ) (i : Nat)
    (hi : i < h) (c k : ℝ) (P : ℝ → Params) (houtp : ∀ t, (P t).outp = p.outp)
    (hbias : ∀ t, (P t).bias_outp = p.bias_outp)
    (hlogit : ∀ t a, hidden_logit (P t) x a
      = if a = i then hidden_logit p x i + (t - c) * k else hidden_logit p x a) :
    HasDerivAt (fun t => output_logit h (P t) x)
      (p.outp i * (tanh_derivative (hidden_logit p x i) * k)) c := by
  have hterm : ∀ a ∈ Finset.range h,
      HasDerivAt (fun t => (P t).outp a * tanh (hidden_logit (P t) x a))
        (if a = i then p.outp i * (tanh_derivative (hidden_logit p x i) * k) else 0) c := by
    intro a _
    by_cases ha : a = i
    · subst ha
      have haff : HasDerivAt (fun t => hidden_logit p x a + (t - c) * k) k c := by
        have := (((hasDerivAt_id c).sub_const c).mul_const k).const_add (hidden_logit p x a)
        simpa using this
      have hbase : hidden_logit p x a + (c - c) * k = hidden_logit p x a := by ring
      have htanh : HasDerivAt tanh (tanh_derivative (hidden_logit p x a))
          (hidden_logit p x a + (c - c) * k) := by
        rw [hbase]
        exact hasDerivAt_tanh _
      have hcomp := (htanh.comp c haff).const_mul (p.outp a)
      have hfun : (fun t => (P t).outp a * tanh (hidden_logit (P t) x a))
          = fun t => p.outp a * (tanh ∘ fun t => hidden_logit p x a + (t - c) * k) t := by
        funext t
        simp [houtp t, hlogit t a]
      rw [hfun, if_pos rfl]
      exact hcomp
    · have hfun : (fun t => (P t).outp a * tanh (hidden_logit (P t) x a))
          = fun _ => p.outp a * tanh (hidden_logit p x a) := by
        funext t
        simp [houtp t, hlogit t a, ha]
      rw [hfun, if_neg ha]
      exact hasDerivAt_const c _
  have hsum := (HasDerivAt.sum hterm).add_const p.bias_outp
  rw [Finset.sum_ite_eq' (Finset.range h) i, if_pos (Finset.mem_range.2 hi)] at hsum
  have hfun : (fun t => output_logit h (P t) x)
      = fun t => (∑ a in Finset.range h, (P t).outp a * tanh (hidden_logit (P t) x a))
          + p.bias_outp := by
    funext t
    simp [output_logit, hbias t]
  rw [hfun]
  exact hsum

theorem hasDerivAt_output_logit_outp (h : Nat) (p : Params) (x : ℝ × ℝ) (i : Nat)
    (hi : i < h) (c : ℝ) :
    HasDerivAt (fun t => output_logit h (p.with_outp i t) x) (tanh (hidden_logit p x i)) c := by
  have hterm : ∀ a ∈ Finset.range h,
      HasDerivAt (fun t => (p.with_outp i t).outp a * tanh (hidden_logit (p.with_outp i t) x a))
        (if a = i then tanh (hidden_logit p x i) else 0) c := by
    intro a _
    by_cases ha : a = i
    · subst ha
      have hfun : (fun t => (p.with_outp a t).outp a * tanh (hidden_logit (p.with_outp a t) x a))
          = fun t => t * tanh (hidden_logit p x a) := by
        funext t
        simp [Params.with_outp, hidden_logit]
      rw [hfun, if_pos rfl]
      simpa using (hasDerivAt_id c).mul_const (tanh (hidden_logit p x a))
    · have hfun : (fun t => (p.with_outp i t).outp a * tanh (hidden_logit (p.with_outp i t) x a))
          = fun _ => p.outp a * tanh (hidden_logit p x a) := by
        funext t
        simp [Params.with_outp, hidden_logit, ha]
      rw [hfun, if_neg ha]
      exact hasDerivAt_const c _
  have hsum := (HasDerivAt.sum hterm).add_const p.bias_outp
  rw [Finset.sum_ite_eq' (Finset.range h) i, if_pos (Finset.mem_range.2 hi)] at hsum
  exact hsum

theorem hasDerivAt_output_logit_bias_outp (h : Nat) (p : Params) (x : ℝ × ℝ) (c : ℝ) :
    HasDerivAt (fun t => output_logit h (p.with_bias_outp t) x) 1 c := by
  have hfun : (fun t => output_logit h (p.with_bias_outp t) x)
      = fun t => (∑ a in Finset.range h, p.outp a * tanh (hidden_logit p x a)) + t := by
    funext t
    simp [output_logit, Params.with_bias_outp, hidden_logit]
  rw [hfun]
  exact (hasDerivAt_id c).const_add _

theorem with_hidd_self (p : Params) (i j : Nat) : p.with_hidd i j (p.hidd i j) = p := by
  cases p with
  | mk hidd bias_hidd outp bias_outp =>
    simp only [Params.with_hidd, Params.mk.injEq, and_true]
    funext a b
    by_cases hab : a = i ∧ b = j
    · simp [hab.1, hab.2]
    · simp [hab]

theorem with_bias_hidd_self (p : Params) (i : Nat) :
    p.with_bias_hidd i (p.bias_hidd i) = p := by
  cases p with
  | mk hidd bias_hidd outp bias_outp =>
    simp only [Params.with_bias_hidd, Params.mk.injEq, true_and, and_true]
    funext a
    by_cases ha : a = i
    · simp [ha]
    · simp [ha]

theorem with_outp_self (p : Params) (i : Nat) : p.with_outp i (p.outp i) = p := by
  cases p with
  | mk hidd bias_hidd outp bias_outp =>
    simp only [Params.with_outp, Params.mk.injEq, true_and, and_true]
    funext a
    by_cases ha : a = i
    · simp [ha]
    · simp [ha]

theorem entry_tab (m n : Nat) (f : Nat → Nat → ℝ) (i j : Nat) (hi : i < m) (hj : j < n) :
    entry (tab m (fun a => tab n (f a))) i j = f i j := by
  simp [entry, tab_getElem?, hi, hj]

theorem entry_single (n : Nat) (f : Nat → ℝ) (i : Nat) (hi : i < n) :
    entry [tab n f] 0 i = f i := by
  simp [entry, tab_getElem?, hi]

/-- The four partial derivatives of the sample loss, on index functions. -/
theorem hasDerivAt_sample_loss_params (h : Nat) (p : Params) (x : ℝ × ℝ) (target : ℝ) :
    (∀ i j, i < h → j < 2 →
      HasDerivAt (fun t => sample_loss h (p.with_hidd i j t) x target)
        ((gradients_of h p x target).hidd i j) (p.hidd i j)) ∧
    (∀ i, i < h →
      HasDerivAt (fun t => sample_loss h (p.with_bias_hidd i t) x target)
        ((gradients_of h p x target).bias_hidd i) (p.bias_hidd i)) ∧
    (∀ i, i < h →
      HasDerivAt (fun t => sample_loss h (p.with_outp i t) x target)
        ((gradients_of h p x target).outp i) (p.outp i)) ∧
    HasDerivAt (fun t => sample_loss h (p.with_bias_outp t) x target)
      (gradients_of h p x target).bias_outp p.bias_outp := by
  refine ⟨?_, ?_, ?_, ?_⟩
  · intro i j hi hj
    have hd := hasDerivAt_output_logit_hidden h p x i hi (p.hidd i j) (coordinate x j)
      (p.with_hidd i j) (fun _ => rfl) (fun _ => rfl)
      (fun t a => hidden_logit_with_hidd p x i j a t hj)
    have := hasDerivAt_sample_loss h (p.with_hidd i j) x target _ _ hd
    rw [with_hidd_self] at this
    convert this using 1
    simp only [gradients_of]
    ring
  · intro i hi
    have hd := hasDerivAt_output_logit_hidden h p x i hi (p.bias_hidd i) 1
      (p.with_bias_hidd i) (fun _ => rfl) (fun _ => rfl)
      (fun t a => by rw [hidden_logit_with_bias_hidd, mul_one])
    have := hasDerivAt_sample_loss h (p.with_bias_hidd i) x target _ _ hd
    rw [with_bias_hidd_self] at this
    convert this using 1
    simp only [gradients_of]
    ring
  · intro i hi
    have hd := hasDerivAt_output_logit_outp h p x i hi (p.outp i)
    have := hasDerivAt_sample_loss h (p.with_outp i) x target _ _ hd
    rw [with_outp_self] at this
    convert this using 1
    simp only [gradients_of]
    ring
  · have hd := hasDerivAt_output_logit_bias_outp h p x p.bias_outp
    have := hasDerivAt_sample_loss h p.with_bias_outp x target _ _ hd
    have hself : p.with_bias_outp p.bias_outp = p := rfl
    rw [hself] at this
    convert this using 1
    simp only [gradients_of]
    ring

end Derivatives

/-! ## Theorems: the training program -/

section ProgramFacts

theorem sample_network_shaped : Shaped sample_network 2 := by
  simp [Shaped, sample_network, input_neuron_count, output_neuron_count]

/-- Claim C1. For parameters of the shapes of `h` hidden units and a sample
`(x, target)` (any input pair and target, so each of the four XOR samples), the
forward and the backward pass return, the gradients have the values
`delta_outp = bce_with_logits_loss_delta logit_outp target`,
`gradient_outp[i] = output_hidd[i] * delta_outp`,
`delta_hidd[i] = weight_outp[0][i] * delta_outp * tanh_derivative logit_hidd[i]`,
`gradient_hidd[i][j] = delta_hidd[i] * input[j]`, and each of them is the derivative
of the loss of the sample in its parameter, the other parameters being fixed. -/
theorem backward_computes_partial_derivatives (h : Nat) (net : Network) (x : ℝ × ℝ)
    (target : ℝ) (hs : Shaped net h) :
    ∃ fw g, forward_pass net h [x.1, x.2] target = .ok fw ∧
      backward net h [x.1, x.2] target fw = .ok g ∧
      loss_of net h x target = .ok (bce_with_logits_loss fw.logit_outp target) ∧
      g.gradient_bias_outp = bce_with_logits_loss_delta fw.logit_outp target ∧
      (∀ i, i < h →
        g.gradient_outp.getD i 0 = fw.output_hidd.getD i 0 * g.gradient_bias_outp ∧
        g.gradient_bias_hidd.getD i 0
          = (entry net.weight_outp 0 i * g.gradient_bias_outp)
              * tanh_derivative (fw.logit_hidd.getD i 0) ∧
        ∀ j, j < 2 →
          entry g.gradient_hidd i j = g.gradient_bias_hidd.getD i 0 * [x.1, x.2].getD j 0) ∧
      (∀ i j, i < h → j < 2 → ∃ L : ℝ → ℝ,
        (∀ t, loss_of (net.with_weight_hidd i j t) h x target = .ok (L t)) ∧
        HasDerivAt L (entry g.gradient_hidd i j) (entry net.weight_hidd i j)) ∧
      (∀ i, i < h → ∃ L : ℝ → ℝ,
        (∀ t, loss_of (net.with_bias_hidd i t) h x target = .ok (L t)) ∧
        HasDerivAt L (g.gradient_bias_hidd.getD i 0) (net.bias_hidd.getD i 0)) ∧
      (∀ i, i < h → ∃ L : ℝ → ℝ,
        (∀ t, loss_of (net.with_weight_outp i t) h x target = .ok (L t)) ∧
        HasDerivAt L (g.gradient_outp.getD i 0) (entry net.weight_outp 0 i)) ∧
      (∃ L : ℝ → ℝ,
        (∀ t, loss_of (net.with_bias_outp t) h x target = .ok (L t)) ∧
        HasDerivAt L g.gradient_bias_outp (net.bias_outp.getD 0 0)) := by
  have hnet := shaped_eq_toNetwork net h hs
  generalize net.toParams = p at hnet
  subst hnet
  obtain ⟨d1, d2, d3, d4⟩ := hasDerivAt_sample_loss_params h p x target
  refine ⟨forward_of h p x target, (gradients_of h p x target).toGradients h,
    forward_pass_closed h p x target, backward_closed h p x target,
    loss_of_toNetwork h p x target, rfl, ?_, ?_, ?_, ?_, ?_⟩
  · intro i hi
    refine ⟨?_, ?_, ?_⟩
    · simp [Params.toGradients, forward_of, gradients_of, tab_getElem?, hi]
    · simp [Params.toGradients, Params.toNetwork, forward_of, gradients_of,
        tab_getElem?, hi, entry_single _ _ i hi]
    · intro j hj
      simp only [Params.toGradients, input_neuron_count, entry_tab _ _ _ i j hi hj,
        getD_tab _ _ i _ hi, gradients_of]
      interval_cases j <;> simp [coordinate]
  · intro i j hi hj
    refine ⟨fun t => sample_loss h (p.with_hidd i j t) x target, ?_, ?_⟩
    · intro t
      rw [with_weight_hidd_toNetwork h p i j t hi, loss_of_toNetwork]
    · simp only [Params.toGradients, Params.toNetwork, input_neuron_count,
        entry_tab _ _ _ i j hi hj]
      exact d1 i j hi hj
  · intro i hi
    refine ⟨fun t => sample_loss h (p.with_bias_hidd i t) x target, ?_, ?_⟩
    · intro t
      rw [with_bias_hidd_toNetwork, loss_of_toNetwork]
    · simp only [Params.toGradients, Params.toNetwork, getD_tab _ _ i _ hi]
      exact d2 i hi
  · intro i hi
    refine ⟨fun t => sample_loss h (p.with_outp i t) x target, ?_, ?_⟩
    · intro t
      rw [with_weight_outp_toNetwork, loss_of_toNetwork]
    · simp only [Params.toGradients, Params.toNetwork, getD_tab _ _ i _ hi,
        entry_single _ _ i hi]
      exact d3 i hi
  · refine ⟨fun t => sample_loss h (p.with_bias_outp t) x target, ?_, ?_⟩
    · intro t
      rw [with_bias_outp_toNetwork, loss_of_toNetwork]
    · simpa [Params.toGradients, Params.toNetwork] using d4

theorem backward_computes_partial_derivatives_witness :
    ∃ fw g, forward_pass sample_network 2 [1, 0] 1 = .ok fw ∧
      backward sample_network 2 [1, 0] 1 fw = .ok g ∧
      ∃ L : ℝ → ℝ, (∀ t, loss_of (sample_network.with_bias_outp t) 2 (1, 0) 1 = .ok (L t)) ∧
        HasDerivAt L g.gradient_bias_outp (sample_network.bias_outp.getD 0 0) := by
  obtain ⟨fw, g, h1, h2, _, _, _, _, _, _, h9⟩ :=
    backward_computes_partial_derivatives 2 sample_network (1, 0) 1 sample_network_shaped
  exact ⟨fw, g, h1, h2, h9⟩

theorem sample_gradients_closed (h : Nat) (p : Params) (n : Nat) (hn : n < 4) :
    sample_gradients (p.toNetwork h) h n
      = .ok ((gradients_of h p (sample_input n) (sample_target n)).toGradients h) := by
  obtain ⟨hb, ht⟩ := at_index_batch n hn
  simp only [sample_gradients, hb, ht, bind, Except.bind, forward_pass_closed, backward_closed]

/-- Claim C2. From parameters of the shapes of `h` hidden units (and with a display
interval that is not zero, so that the print condition can be evaluated) one epoch
returns parameters of the same shapes in which every parameter `p` has become
`p - learning_rate * ((g1 + g2 + g3 + g4) / 4)`, where `g1 .. g4` are the gradients of
the four samples in dataset order, all computed from the parameters at the start. -/
theorem train_epoch_is_mean_gradient_step (learning_rate : ℝ) (h epoch print_frequency : Nat)
    (net : Network) (hpf : print_frequency ≠ 0) (hs : Shaped net h) :
    ∃ g1 g2 g3 g4 net1 total_loss,
      sample_gradients net h 0 = .ok g1 ∧ sample_gradients net h 1 = .ok g2 ∧
      sample_gradients net h 2 = .ok g3 ∧ sample_gradients net h 3 = .ok g4 ∧
      train_epoch learning_rate h epoch print_frequency net = .ok (net1, total_loss) ∧
      Shaped net1 h ∧
      (∀ i j, i < h → j < 2 →
        entry net1.weight_hidd i j = entry net.weight_hidd i j - learning_rate *
          ((entry g1.gradient_hidd i j + entry g2.gradient_hidd i j
            + entry g3.gradient_hidd i j + entry g4.gradient_hidd i j) / 4)) ∧
      (∀ i, i < h →
        net1.bias_hidd.getD i 0 = net.bias_hidd.getD i 0 - learning_rate *
          ((g1.gradient_bias_hidd.getD i 0 + g2.gradient_bias_hidd.getD i 0
            + g3.gradient_bias_hidd.getD i 0 + g4.gradient_bias_hidd.getD i 0) / 4)) ∧
      (∀ i, i < h →
        entry net1.weight_outp 0 i = entry net.weight_outp 0 i - learning_rate *
          ((g1.gradient_outp.getD i 0 + g2.gradient_outp.getD i 0
            + g3.gradient_outp.getD i 0 + g4.gradient_outp.getD i 0) / 4)) ∧
      net1.bias_outp.getD 0 0 = net.bias_outp.getD 0 0 - learning_rate *
        ((g1.gradient_bias_outp + g2.gradient_bias_outp
          + g3.gradient_bias_outp + g4.gradient_bias_outp) / 4) := by
  have hnet := shaped_eq_toNetwork net h hs
  generalize net.toParams = p at hnet
  subst hnet
  refine ⟨_, _, _, _, _, _, sample_gradients_closed h p 0 (by norm_num),
    sample_gradients_closed h p 1 (by norm_num), sample_gradients_closed h p 2 (by norm_num),
    sample_gradients_closed h p 3 (by norm_num),
    train_epoch_closed learning_rate h epoch print_frequency hpf p,
    shaped_toNetwork h _, ?_, ?_, ?_, ?_⟩
  · intro i j hi hj
    simp only [Params.toGradients, Params.toNetwork, input_neuron_count,
      entry_tab _ _ _ i j hi hj, epoch_of, Params.descend, accumulated, Params.add,
      Params.zero]
    ring
  · intro i hi
    simp only [Params.toGradients, Params.toNetwork, getD_tab _ _ i _ hi, epoch_of,
      Params.descend, accumulated, Params.add, Params.zero]
    ring
  · intro i hi
    simp only [Params.toGradients, Params.toNetwork, getD_tab _ _ i _ hi,
      entry_single _ _ i hi, epoch_of, Params.descend, accumulated, Params.add, Params.zero]
    ring
  · simp only [Params.toGradients, Params.toNetwork, epoch_of, Params.descend, accumulated,
      Params.add, Params.zero, List.getD_cons_zero]
    ring

theorem train_epoch_is_mean_gradient_step_witness :
    ∃ g1 g2 g3 g4 net1 total_loss,
      sample_gradients sample_network 2 0 = .ok g1 ∧
      sample_gradients sample_network 2 1 = .ok g2 ∧
      sample_gradients sample_network 2 2 = .ok g3 ∧
      sample_gradients sample_network 2 3 = .ok g4 ∧
      train_epoch (1 / 2) 2 1 100 sample_network = .ok (net1, total_loss) ∧
      net1.bias_outp.getD 0 0 = sample_network.bias_outp.getD 0 0 - 1 / 2 *
        ((g1.gradient_bias_outp + g2.gradient_bias_outp
          + g3.gradient_bias_outp + g4.gradient_bias_outp) / 4) := by
  obtain ⟨g1, g2, g3, g4, net1, total, h1, h2, h3, h4, h5, _, _, _, _, h10⟩ :=
    train_epoch_is_mean_gradient_step (1 / 2) 2 1 100 sample_network (by norm_num)
      sample_network_shaped
  exact ⟨g1, g2, g3, g4, net1, total, h1, h2, h3, h4, h5, h10⟩

theorem evaluation_hidden_body_eq : evaluation_hidden_body = hidden_body := rfl

/-- Claim C5. For parameters of the shapes of `h` hidden units and every input pair,
the evaluation pass returns `sigmoid logit_outp` for the very `logit_outp` that the
training forward pass computes from the same parameters and input, this logit is
`dot(weight_outp[0], tanh(logit_hidd)) + bias_outp[0]` with
`logit_hidd[i] = dot(weight_hidd[i], input) + bias_hidd[i]`, and the evaluation pass
hands the parameters back as they were. -/
theorem evaluation_is_sigmoid_of_forward_logit (h : Nat) (net : Network) (x : ℝ × ℝ)
    (target : ℝ) (hs : Shaped net h) :
    ∃ fw, forward_pass net h [x.1, x.2] target = .ok fw ∧
      evaluate_sample h x net = .ok (sigmoid fw.logit_outp, net) ∧
      fw.logit_hidd.length = h ∧ fw.output_hidd.length = h ∧
      (∀ i, i < h → ∃ row d bias, net.weight_hidd[i]? = some row ∧
        net.bias_hidd[i]? = some bias ∧ vec_dot row [x.1, x.2] = .ok d ∧
        fw.logit_hidd[i]? = some (d + bias) ∧ fw.output_hidd[i]? = some (tanh (d + bias))) ∧
      (∃ row d bias, net.weight_outp[0]? = some row ∧ net.bias_outp[0]? = some bias ∧
        vec_dot row fw.output_hidd = .ok d ∧ fw.logit_outp = d + bias) := by
  have hnet := shaped_eq_toNetwork net h hs
  generalize net.toParams = p at hnet
  subst hnet
  refine ⟨forward_of h p x target, forward_pass_closed h p x target, ?_, tab_length _ _,
    tab_length _ _, ?_, ?_⟩
  · simp only [evaluate_sample, evaluation_hidden_body_eq, hidden_loop_closed, bind,
      Except.bind, pure, Except.pure]
    simp only [Params.toNetwork, at_index_cons_zero, vec_dot_tab, forward_of, output_logit]
  · intro i hi
    refine ⟨tab 2 (p.hidd i), p.hidd i 0 * x.1 + p.hidd i 1 * x.2, p.bias_hidd i, ?_, ?_,
      vec_dot_pair _ _, ?_, ?_⟩
    · simp [Params.toNetwork, tab_getElem?, hi, input_neuron_count]
    · simp [Params.toNetwork, tab_getElem?, hi]
    · simp [forward_of, tab_getElem?, hi, hidden_logit]
    · simp [forward_of, tab_getElem?, hi, hidden_logit]
  · refine ⟨tab h p.outp, _, p.bias_outp, ?_, ?_, vec_dot_tab _ _ _, ?_⟩
    · simp [Params.toNetwork]
    · simp [Params.toNetwork]
    · simp [forward_of, output_logit]

theorem evaluation_is_sigmoid_of_forward_logit_witness :
    ∃ fw, forward_pass sample_network 2 [1, 0] 1 = .ok fw ∧
      evaluate_sample 2 (1, 0) sample_network = .ok (sigmoid fw.logit_outp, sample_network) := by
  obtain ⟨fw, h1, h2, _⟩ :=
    evaluation_is_sigmoid_of_forward_logit 2 sample_network (1, 0) 1 sample_network_shaped
  exact ⟨fw, h1, h2⟩

/-! ### The best loss -/

theorem track_spec (M : Nat → ℝ) (h1 : M 1 < 1.0e300) :
    ∀ N, 1 ≤ N →
      (∀ k, 1 ≤ k → k ≤ N → (track M N).1 ≤ M k) ∧
      1 ≤ (track M N).2 ∧ (track M N).2 ≤ N ∧ M (track M N).2 = (track M N).1 ∧
      (∀ k, 1 ≤ k → k < (track M N).2 → (track M N).1 < M k) := by
  intro N hN
  induction N, hN using Nat.le_induction with
  | base =>
    have h0 : track M 1 = (M 1, 1) := by
      simp only [track]
      rw [if_pos h1]
    rw [h0]
    refine ⟨?_, le_refl _, le_refl _, rfl, ?_⟩
    · intro k hk1 hk2
      have : k = 1 := by omega
      rw [this]
    · intro k hk1 hk2
      simp only at hk2
      omega
  | succ n hn ih =>
    obtain ⟨ih1, ih2, ih3, ih4, ih5⟩ := ih
    by_cases hc : (track M n).1 > M (n + 1)
    · have h0 : track M (n + 1) = (M (n + 1), n + 1) := by
        simp only [track]
        rw [if_pos hc]
      rw [h0]
      refine ⟨?_, by simp, le_refl _, rfl, ?_⟩
      · intro k hk1 hk2
        rcases Nat.eq_or_lt_of_le hk2 with hk | hk
        · rw [hk]
        · exact le_of_lt (lt_of_lt_of_le hc (ih1 k hk1 (by omega)))
      · intro k hk1 hk2
        simp only at hk2
        exact lt_of_lt_of_le hc (ih1 k hk1 (by omega))
    · have h0 : track M (n + 1) = track M n := by
        simp only [track]
        rw [if_neg hc]
      rw [h0]
      refine ⟨?_, ih2, by omega, ih4, ih5⟩
      intro k hk1 hk2
      rcases Nat.eq_or_lt_of_le hk2 with hk | hk
      · rw [hk]
        exact not_lt.1 hc
      · exact ih1 k hk1 (by omega)

theorem track_update (M : Nat → ℝ) (h1 : M 1 < 1.0e300) (N : Nat) (hN : 1 ≤ N) :
    (track M N ≠ track M (N - 1) ↔ ∀ m, 1 ≤ m → m < N → M N < M m) ∧
    ((∀ m, 1 ≤ m → m < N → M N < M m) → track M N = (M N, N)) := by
  obtain ⟨n, rfl⟩ : ∃ n, N = n + 1 := ⟨N - 1, by omega⟩
  simp only [Nat.add_sub_cancel]
  have hbefore : ∀ m, 1 ≤ m → m < n + 1 → (track M n).1 ≤ M m ∧ (track M n).2 ≤ n := by
    intro m hm1 hm2
    obtain ⟨s1, _, s3, _, _⟩ := track_spec M h1 n (by omega)
    exact ⟨s1 m hm1 (by omega), s3⟩
  by_cases hc : (track M n).1 > M (n + 1)
  · have h0 : track M (n + 1) = (M (n + 1), n + 1) := by
      simp only [track]
      rw [if_pos hc]
    have hall : ∀ m, 1 ≤ m → m < n + 1 → M (n + 1) < M m :=
      fun m hm1 hm2 => lt_of_lt_of_le hc (hbefore m hm1 hm2).1
    refine ⟨⟨fun _ => hall, fun _ => ?_⟩, fun _ => h0⟩
    rw [h0]
    intro heq
    have h2 : (track M n).2 = n + 1 := by rw [← heq]
    rcases Nat.eq_zero_or_pos n with hn | hn
    · subst hn
      simp [track] at h2
    · have := (track_spec M h1 n hn).2.2.1
      omega
  · have h0 : track M (n + 1) = track M n := by
      simp only [track]
      rw [if_neg hc]
    have hn : 1 ≤ n := by
      rcases Nat.eq_zero_or_pos n with hn | hn
      · subst hn
        exact absurd h1 (by simpa [track] using hc)
      · exact hn
    obtain ⟨_, s2, s3, s4, _⟩ := track_spec M h1 n hn
    have hnot : ¬ ∀ m, 1 ≤ m → m < n + 1 → M (n + 1) < M m := by
      intro hall
      have := hall (track M n).2 s2 (by omega)
      rw [s4] at this
      exact hc this
    exact ⟨⟨fun hne => absurd h0 hne, fun hall => absurd hall hnot⟩,
      fun hall => absurd hall hnot⟩

/-- The epoch loop in closed form. -/
theorem train_closed (learning_rate : ℝ) (h print_frequency : Nat) (hpf : print_frequency ≠ 0)
    (p : Params) (n : Nat) :
    train learning_rate h print_frequency n (p.toNetwork h)
      = .ok { net := (params_after learning_rate h p n).toNetwork h,
              best_loss := (track (mean_loss learning_rate h p) n).1,
              best_loss_epoch := (track (mean_loss learning_rate h p) n).2 } := by
  have key := for_loop_closed (epoch_body learning_rate h print_frequency)
    (fun k => { net := (params_after learning_rate h p (k - 1)).toNetwork h,
                best_loss := (track (mean_loss learning_rate h p) (k - 1)).1,
                best_loss_epoch := (track (mean_loss learning_rate h p) (k - 1)).2 })
    n 1 ?_
  · simp only [Nat.sub_self, Nat.add_sub_cancel_left] at key
    exact key
  · intro k hk1 _
    obtain ⟨m, rfl⟩ : ∃ m, k = m + 1 := ⟨k - 1, by omega⟩
    simp only [Nat.add_sub_cancel, epoch_body, train_epoch_closed learning_rate h (m + 1)
      print_frequency hpf, bind, Except.bind, pure, Except.pure,
      print_due_returns (m + 1) print_frequency hpf, batch_size]
    have hm : mean_loss learning_rate h p (m + 1)
        = (accumulated h (params_after learning_rate h p m) 4).2 / 4 := by
      simp [mean_loss]
    by_cases hc : (track (mean_loss learning_rate h p) m).1
        > mean_loss learning_rate h p (m + 1)
    · have hc2 := hc
      rw [hm] at hc2
      simp only [track, if_pos hc, if_pos hc2, params_after, hm]
    · have hc2 := hc
      rw [hm] at hc2
      simp only [track, if_neg hc, if_neg hc2, params_after]

theorem abs_tanh_le_one (x : ℝ) : |tanh x| ≤ 1 := by
  have hc := Real.cosh_pos x
  have h1 : Real.sinh x < Real.cosh x := Real.sinh_lt_cosh x
  have h2 : Real.sinh (-x) < Real.cosh (-x) := Real.sinh_lt_cosh (-x)
  rw [Real.sinh_neg, Real.cosh_neg] at h2
  rw [tanh, Real.tanh_eq_sinh_div_cosh, abs_div, abs_of_pos hc, div_le_one hc, abs_le]
  constructor <;> linarith

/-- The fused loss lies between `0` and `|logit| + log 2` for a target in `[0, 1]`. -/
theorem bce_with_logits_loss_bounds (logit target : ℝ) (h0 : 0 ≤ target) (h1 : target ≤ 1) :
    0 ≤ bce_with_logits_loss logit target ∧
    bce_with_logits_loss logit target ≤ |logit| + Real.log 2 := by
  have hexp : Real.exp (-|logit|) ≤ 1 := by
    rw [← Real.exp_zero]
    exact Real.exp_le_exp.2 (by simp)
  have hpos : 0 < Real.exp (-|logit|) := Real.exp_pos _
  have hlog0 : 0 ≤ Real.log (1 + Real.exp (-|logit|)) := Real.log_nonneg (by linarith)
  have hlog2 : Real.log (1 + Real.exp (-|logit|)) ≤ Real.log 2 :=
    Real.log_le_log (by linarith) (by linarith)
  unfold bce_with_logits_loss
  rcases le_or_lt 0 logit with h | h
  · rw [max_eq_left h]
    have ha : |logit| = logit := abs_of_nonneg h
    have : 0 ≤ logit * target := mul_nonneg h h0
    have : logit * target ≤ logit := by nlinarith
    constructor <;> linarith
  · rw [max_eq_right h.le]
    have ha : |logit| = -logit := abs_of_neg h
    have : 0 ≤ -logit * target := mul_nonneg (by linarith) h0
    have : -logit * target ≤ -logit := by nlinarith
    constructor <;> linarith

theorem xavier_limit_le_two (h : Nat) : xavier_limit (input_neuron_count : ℝ) (h : ℝ) ≤ 2 := by
  unfold xavier_limit
  rw [Real.sqrt_le_iff]
  refine ⟨by norm_num, ?_⟩
  have hh : (0 : ℝ) ≤ (h : ℝ) := Nat.cast_nonneg h
  have hden : (0 : ℝ) < (input_neuron_count : ℝ) + (h : ℝ) := by
    simp only [input_neuron_count]
    push_cast
    linarith
  rw [div_le_iff₀ hden]
  simp only [input_neuron_count]
  push_cast
  linarith

theorem abs_output_logit_le (h : Nat) (p : Params) (x : ℝ × ℝ) (B : ℝ)
    (hB : ∀ i, i < h → |p.outp i| ≤ B) :
    |output_logit h p x| ≤ h * B + |p.bias_outp| := by
  unfold output_logit
  have hsum : |∑ i in Finset.range h, p.outp i * tanh (hidden_logit p x i)|
      ≤ ∑ _i in Finset.range h, B := by
    refine le_trans (Finset.abs_sum_le_sum_abs _ _) (Finset.sum_le_sum ?_)
    intro i hi
    have hi : i < h := Finset.mem_range.1 hi
    have hb := hB i hi
    have ht := abs_tanh_le_one (hidden_logit p x i)
    rw [abs_mul]
    have hB0 : 0 ≤ B := le_trans (abs_nonneg _) hb
    calc |p.outp i| * |tanh (hidden_logit p x i)| ≤ B * 1 :=
          mul_le_mul hb ht (abs_nonneg _) hB0
      _ = B := mul_one B
  rw [Finset.sum_const, Finset.card_range, nsmul_eq_mul] at hsum
  exact le_trans (abs_add _ _) (by linarith)

theorem sample_target_range (n : Nat) : 0 ≤ sample_target n ∧ sample_target n ≤ 1 := by
  unfold sample_target batch_answ
  match n with
  | 0 => simp
  | 1 => simp
  | 2 => simp
  | 3 => simp
  | _ + 4 => simp

/-- The mean loss of an epoch is at most `h * B + |bias_outp| + log 2` when the output
weights are bounded by `B`, and it is not negative. -/
theorem accumulated_loss_bounds (h : Nat) (p : Params) (B : ℝ)
    (hB : ∀ i, i < h → |p.outp i| ≤ B) :
    0 ≤ (accumulated h p 4).2 / 4 ∧
    (accumulated h p 4).2 / 4 ≤ h * B + |p.bias_outp| + Real.log 2 := by
  have hs : ∀ n, 0 ≤ sample_loss h p (sample_input n) (sample_target n) ∧
      sample_loss h p (sample_input n) (sample_target n)
        ≤ h * B + |p.bias_outp| + Real.log 2 := by
    intro n
    obtain ⟨t0, t1⟩ := sample_target_range n
    obtain ⟨b0, b1⟩ := bce_with_logits_loss_bounds (output_logit h p (sample_input n))
      (sample_target n) t0 t1
    have := abs_output_logit_le h p (sample_input n) B hB
    exact ⟨b0, by unfold sample_loss; linarith⟩
  obtain ⟨a0, a1⟩ := hs 0
  obtain ⟨b0, b1⟩ := hs 1
  obtain ⟨c0, c1⟩ := hs 2
  obtain ⟨d0, d1⟩ := hs 3
  simp only [accumulated]
  constructor <;> linarith

theorem initial_params_bounds (h : Nat) (p : Params) (hinit : InitialState (p.toNetwork h) h) :
    (∀ i, i < h → |p.outp i| ≤ 2) ∧ p.bias_outp = 0 := by
  obtain ⟨_, _, ho, _, hb⟩ := hinit
  constructor
  · intro i hi
    have hmem : p.outp i ∈ tab h p.outp := by
      simp only [tab, List.mem_map, List.mem_range]
      exact ⟨i, hi, rfl⟩
    obtain ⟨l, u⟩ := ho (tab h p.outp) (by simp [Params.toNetwork]) (p.outp i) hmem
    have := xavier_limit_le_two h
    rw [abs_le]
    constructor <;> linarith
  · exact hb p.bias_outp (by simp [Params.toNetwork])

theorem first_mean_loss_small (learning_rate : ℝ) (h : Nat) (p : Params)
    (hinit : InitialState (p.toNetwork h) h) (hh : h < 2 ^ 64) :
    mean_loss learning_rate h p 1 < 1.0e300 := by
  obtain ⟨hB, hb⟩ := initial_params_bounds h p hinit
  have hbound := (accumulated_loss_bounds h p 2 hB).2
  rw [hb, abs_zero] at hbound
  have hlog : Real.log 2 < 1 := lt_trans Real.log_two_lt_d9 (by norm_num)
  have hcast : (h : ℝ) < 2 ^ 64 := by exact_mod_cast hh
  have hlt : (h : ℝ) * 2 + 0 + Real.log 2 < 1.0e300 := by
    have : (2 : ℝ) ^ 64 * 2 + 0 + 1 < 1.0e300 := by norm_num
    linarith
  simp only [mean_loss, Nat.sub_self, params_after]
  linarith

theorem epoch_mean_loss_closed (learning_rate : ℝ) (h print_frequency : Nat)
    (hpf : print_frequency ≠ 0) (p : Params) (k : Nat) :
    epoch_mean_loss learning_rate h print_frequency (p.toNetwork h) k
      = .ok (mean_loss learning_rate h p k) := by
  simp only [epoch_mean_loss, train_closed learning_rate h print_frequency hpf p, bind,
    Except.bind, pure, Except.pure, train_epoch_closed learning_rate h k print_frequency hpf,
    batch_size, mean_loss]

theorem sample_network_initial : InitialState sample_network 2 := by
  have hL : (1 : ℝ) ≤ xavier_limit (input_neuron_count : ℝ) ((2 : ℕ) : ℝ) := by
    unfold xavier_limit input_neuron_count
    rw [Real.le_sqrt' one_pos]
    norm_num
  refine ⟨sample_network_shaped, ?_, ?_, ?_, ?_⟩
  · intro row hrow w hw
    simp only [sample_network, List.mem_cons, List.mem_singleton, List.not_mem_nil,
      or_false] at hrow
    rcases hrow with rfl | rfl
    · simp only [List.mem_cons, List.mem_singleton, List.not_mem_nil, or_false, or_self] at hw
      subst hw
      constructor <;> linarith
    · simp only [List.mem_cons, List.mem_singleton, List.not_mem_nil, or_false] at hw
      rcases hw with rfl | rfl <;> constructor <;> linarith
  · intro row hrow w hw
    simp only [sample_network, List.mem_singleton] at hrow
    subst hrow
    simp only [List.mem_cons, List.mem_singleton, List.not_mem_nil, or_false] at hw
    rcases hw with rfl | rfl <;> constructor <;> linarith
  · intro b hb
    simpa [sample_network] using hb
  · intro b hb
    simpa [sample_network] using hb

/-- Claim C6. Run the program from an initial state (the shapes of `h` hidden units
with `h` a `size_t`, weights within the Xavier bound, zero biases) with a display
interval that is not zero, and let `M k` be the mean loss `total_loss / 4` of epoch
`k`. After epochs `1 .. N`, `N ≥ 1`, `best_loss` is the least of `M 1 .. M N`,
`best_loss_epoch` is the first epoch that attains it, and epoch `N` has replaced the
pair exactly when `M N` is strictly below every earlier mean loss, in which case the
pair is `(M N, N)`; for `N = 1` that is always. -/
theorem best_loss_is_earliest_minimum (learning_rate : ℝ) (h print_frequency : Nat)
    (net : Network) (hpf : print_frequency ≠ 0) (hinit : InitialState net h)
    (hh : h < 2 ^ 64) :
    ∃ M : Nat → ℝ,
      (∀ k, 1 ≤ k → epoch_mean_loss learning_rate h print_frequency net k = .ok (M k)) ∧
      ∀ N, 1 ≤ N → ∃ before after,
        train learning_rate h print_frequency (N - 1) net = .ok before ∧
        train learning_rate h print_frequency N net = .ok after ∧
        (∀ k, 1 ≤ k → k ≤ N → after.best_loss ≤ M k) ∧
        1 ≤ after.best_loss_epoch ∧ after.best_loss_epoch ≤ N ∧
        M after.best_loss_epoch = after.best_loss ∧
        (∀ k, 1 ≤ k → k < after.best_loss_epoch → after.best_loss < M k) ∧
        ((after.best_loss, after.best_loss_epoch) ≠ (before.best_loss, before.best_loss_epoch)
          ↔ ∀ m, 1 ≤ m → m < N → M N < M m) ∧
        ((∀ m, 1 ≤ m → m < N → M N < M m) →
          after.best_loss = M N ∧ after.best_loss_epoch = N) := by
  have hnet := shaped_eq_toNetwork net h hinit.1
  generalize net.toParams = p at hnet
  subst hnet
  have h1 := first_mean_loss_small learning_rate h p hinit hh
  refine ⟨mean_loss learning_rate h p,
    fun k _ => epoch_mean_loss_closed learning_rate h print_frequency hpf p k, ?_⟩
  intro N hN
  obtain ⟨s1, s2, s3, s4, s5⟩ := track_spec (mean_loss learning_rate h p) h1 N hN
  obtain ⟨u1, u2⟩ := track_update (mean_loss learning_rate h p) h1 N hN
  refine ⟨_, _, train_closed learning_rate h print_frequency hpf p (N - 1),
    train_closed learning_rate h print_frequency hpf p N, s1, s2, s3, s4, s5, u1, ?_⟩
  intro hall
  have := u2 hall
  simp only [this, and_self]

theorem best_loss_is_earliest_minimum_witness :
    ∃ M : Nat → ℝ,
      (∀ k, 1 ≤ k → epoch_mean_loss (1 / 2) 2 100 sample_network k = .ok (M k)) ∧
      ∃ after, train (1 / 2) 2 100 1 sample_network = .ok after ∧
        after.best_loss = M 1 ∧ after.best_loss_epoch = 1 := by
  obtain ⟨M, hM, hN⟩ := best_loss_is_earliest_minimum (1 / 2) 2 100 sample_network
    (by norm_num) sample_network_initial (by norm_num)
  obtain ⟨_, after, _, h2, _, _, _, _, _, _, h9⟩ := hN 1 (le_refl _)
  exact ⟨M, hM, after, h2, h9 (fun m hm1 hm2 => by omega)⟩

/-! ### Initialisation -/

/-- A loop that keeps an invariant returns, and the invariant holds at its end. -/
theorem for_loop_invariant {σ : Type} (body : Nat → σ → Except Failure σ)
    (P : Nat → σ → Prop) :
    ∀ (count first : Nat) (s : σ), P first s →
      (∀ k s, first ≤ k → k < first + count → P k s →
        ∃ s1, body k s = .ok s1 ∧ P (k + 1) s1) →
      ∃ s1, for_loop body first count s = .ok s1 ∧ P (first + count) s1
  | 0, first, s, h0, _ => ⟨s, by simp [for_loop], by simpa using h0⟩
  | count + 1, first, s, h0, hstep => by
    obtain ⟨s1, hs1, hP1⟩ := hstep first s (le_refl _) (by omega) h0
    obtain ⟨s2, hs2, hP2⟩ := for_loop_invariant body P count (first + 1) s1 hP1
      (fun k s hk1 hk2 hP => hstep k s (by omega) (by omega) hP)
    refine ⟨s2, by simp only [for_loop, hs1, hs2], ?_⟩
    have : first + (count + 1) = first + 1 + count := by omega
    rw [this]
    exact hP2

theorem draw_entry_spec {E : Type} (lib : EngineLib E) (lo hi : ℝ)
    (hdraw : ∀ e, lo ≤ (lib.draw e lo hi).1 ∧ (lib.draw e lo hi).1 ≤ hi)
    (rows cols i j : Nat) (hi1 : i < rows) (hj : j < cols) (s : List (List ℝ) × Random E)
    (hs : DrawnUpTo lo hi rows cols i j s) :
    ∃ s1, draw_entry lib lo hi i j s = .ok s1 ∧ DrawnUpTo lo hi rows cols i (j + 1) s1 := by
  obtain ⟨hr, f, hm, hf⟩ := hs
  have hd : Random.Double lib lo hi s.2
      = .ok ((lib.draw s.2.engine lo hi).1,
          { s.2 with engine := (lib.draw s.2.engine lo hi).2 }) := by
    simp [Random.Double, hr]
  refine ⟨(tab rows (fun a => tab cols (fun b =>
      if a = i ∧ b = j then (lib.draw s.2.engine lo hi).1 else f a b)),
      { s.2 with engine := (lib.draw s.2.engine lo hi).2 }),
    by simp only [draw_entry, hd, hm, assign2_tab _ _ _ i j _ hi1 hj], hr, _, rfl, ?_⟩
  intro a b hbc hab
  by_cases hij : a = i ∧ b = j
  · rw [if_pos hij]
    exact hdraw _
  · rw [if_neg hij]
    apply hf a b hbc
    rcases hab with hab | ⟨ha, hb⟩
    · exact Or.inl hab
    · exact Or.inr ⟨ha, by
        rcases Nat.lt_succ_iff_lt_or_eq.1 hb with hb | hb
        · exact hb
        · exact absurd ⟨ha, hb⟩ hij⟩

theorem draw_matrix_spec {E : Type} (lib : EngineLib E) (lo hi : ℝ)
    (hdraw : ∀ e, lo ≤ (lib.draw e lo hi).1 ∧ (lib.draw e lo hi).1 ≤ hi)
    (rows cols : Nat) (r : Random E) (hr : r.isInitialized = true) :
    ∃ m r1, draw_matrix lib lo hi rows cols r = .ok (m, r1) ∧ r1.isInitialized = true ∧
      m.length = rows ∧ ∀ row ∈ m, row.length = cols ∧ ∀ w ∈ row, lo ≤ w ∧ w ≤ hi := by
  have hloop := for_loop_invariant
    (fun i s => for_loop (draw_entry lib lo hi i) 0 cols s)
    (fun i s => DrawnUpTo lo hi rows cols i 0 s) rows 0
    (List.replicate rows (List.replicate cols 0), r)
    ⟨hr, fun _ _ => 0, by simp [replicate_eq_tab], fun a b _ hab => by omega⟩ ?_
  · obtain ⟨s1, hs1, hr1, f, hm, hf⟩ := hloop
    refine ⟨s1.1, s1.2, hs1, hr1, by rw [hm, tab_length], ?_⟩
    intro row hrow
    rw [hm] at hrow
    simp only [tab, List.mem_map, List.mem_range] at hrow
    obtain ⟨a, ha, rfl⟩ := hrow
    refine ⟨by simp, ?_⟩
    intro w hw
    simp only [List.mem_map, List.mem_range] at hw
    obtain ⟨b, hb, rfl⟩ := hw
    exact hf a b hb (Or.inl (by omega))
  · intro i s _ hi1 hs
    have hi1 : i < rows := by omega
    have hrow := for_loop_invariant (draw_entry lib lo hi i)
      (fun j s => DrawnUpTo lo hi rows cols i j s) cols 0 s hs
      (fun j s _ hj hs => draw_entry_spec lib lo hi hdraw rows cols i j hi1 (by omega) s hs)
    obtain ⟨s1, hs1, hr1, f, hm, hf⟩ := hrow
    refine ⟨s1, hs1, hr1, f, hm, ?_⟩
    intro a b hbc hab
    rcases hab with hab | ⟨_, hb⟩
    · rcases Nat.lt_succ_iff_lt_or_eq.1 hab with hab | hab
      · exact hf a b hbc (Or.inl hab)
      · exact hf a b hbc (Or.inr ⟨hab, by omega⟩)
    · omega

/-- Claim C7. Let every draw of `Random::Double(min, max)` with `min ≤ max` lie in
`[min, max]`, and let the generator be initialised. Then for every hidden size `h`
the initialisation returns parameters in which `weight_hidd` is `h` x 2 and
`weight_outp` is 1 x `h`, every entry of both lies in
`[-xavier_limit 2 h, xavier_limit 2 h]` with `xavier_limit 2 h = sqrt (6 / (2 + h))`,
and `bias_hidd` (length `h`) and `bias_outp` (length 1) are zero throughout. -/
theorem init_network_establishes_initial_state {E : Type} (lib : EngineLib E) (h : Nat)
    (r : Random E)
    (hdraw : ∀ e lo hi, lo ≤ hi → lo ≤ (lib.draw e lo hi).1 ∧ (lib.draw e lo hi).1 ≤ hi)
    (hr : r.isInitialized = true) :
    xavier_limit (input_neuron_count : ℝ) (h : ℝ) = Real.sqrt (6 / (2 + (h : ℝ))) ∧
    ∃ net r1, init_network lib h r = .ok (net, r1) ∧
      net.weight_hidd.length = h ∧ (∀ row ∈ net.weight_hidd, row.length = 2) ∧
      net.weight_outp.length = 1 ∧ (∀ row ∈ net.weight_outp, row.length = h) ∧
      (∀ row ∈ net.weight_hidd, ∀ w ∈ row,
        -xavier_limit (input_neuron_count : ℝ) (h : ℝ) ≤ w ∧
          w ≤ xavier_limit (input_neuron_count : ℝ) (h : ℝ)) ∧
      (∀ row ∈ net.weight_outp, ∀ w ∈ row,
        -xavier_limit (input_neuron_count : ℝ) (h : ℝ) ≤ w ∧
          w ≤ xavier_limit (input_neuron_count : ℝ) (h : ℝ)) ∧
      net.bias_hidd.length = h ∧ (∀ b ∈ net.bias_hidd, b = 0) ∧
      net.bias_outp.length = 1 ∧ (∀ b ∈ net.bias_outp, b = 0) ∧
      InitialState net h := by
  have hL : -xavier_limit (input_neuron_count : ℝ) (h : ℝ)
      ≤ xavier_limit (input_neuron_count : ℝ) (h : ℝ) := by
    have : 0 ≤ xavier_limit (input_neuron_count : ℝ) (h : ℝ) := Real.sqrt_nonneg _
    linarith
  have hd := fun e => hdraw e _ _ hL
  obtain ⟨wh, r1, hwh, hr1, hwhlen, hwhall⟩ :=
    draw_matrix_spec lib _ _ hd h input_neuron_count r hr
  obtain ⟨wo, r2, hwo, _, hwolen, hwoall⟩ :=
    draw_matrix_spec lib _ _ hd output_neuron_count h r1 hr1
  have hb1 : ∀ b ∈ List.replicate h (0 : ℝ), b = 0 := fun b hb => (List.mem_replicate.1 hb).2
  have hb2 : ∀ b ∈ List.replicate output_neuron_count (0 : ℝ), b = 0 :=
    fun b hb => (List.mem_replicate.1 hb).2
  refine ⟨by simp [xavier_limit, input_neuron_count],
    { weight_hidd := wh, bias_hidd := List.replicate h 0, weight_outp := wo,
      bias_outp := List.replicate output_neuron_count 0 }, r2, ?_, hwhlen,
    fun row hrow => (hwhall row hrow).1, hwolen, fun row hrow => (hwoall row hrow).1,
    fun row hrow => (hwhall row hrow).2, fun row hrow => (hwoall row hrow).2,
    List.length_replicate _ _, hb1, List.length_replicate _ _, hb2, ?_⟩
  · simp only [init_network, hwh, hwo]
  · exact ⟨⟨hwhlen, fun row hrow => (hwhall row hrow).1, List.length_replicate _ _, hwolen,
      fun row hrow => (hwoall row hrow).1, List.length_replicate _ _⟩,
      fun row hrow => (hwhall row hrow).2, fun row hrow => (hwoall row hrow).2, hb1, hb2⟩

theorem init_network_establishes_initial_state_witness :
    ∃ net r1, init_network lower_end_engine 3
        (Random.Init lower_end_engine 42 (Random.start lower_end_engine)) = .ok (net, r1) ∧
      InitialState net 3 := by
  obtain ⟨_, net, r1, h1, _, _, _, _, _, _, _, _, _, _, h12⟩ :=
    init_network_establishes_initial_state lower_end_engine 3
      (Random.Init lower_end_engine 42 (Random.start lower_end_engine))
      (fun _ lo hi hle => ⟨le_refl lo, hle⟩) rfl
  exact ⟨net, r1, h1, h12⟩

end ProgramFacts






/-! ## Theorems: laws of the vector and matrix operators -/

section LinearAlgebraLaws

theorem transform1_rows {β γ : Type} (op : β → Except Failure γ) (f : β → γ)
    (hop : ∀ a, op a = .ok (f a)) :
    ∀ (xs : List β), transform1 op xs = .ok (xs.map f)
  | [] => by simp [transform1]
  | a :: as => by
    have ih := transform1_rows op f hop as
    simp [transform1, under_policy, hop a, ih]

/-- Matrix scale on a matrix with at least one row: every entry is multiplied. -/
theorem mtx_scale_of_rows {α : Type} [Mul α] (mtx : List (List α)) (num : α)
    (hrows : mtx ≠ []) :
    mtx_scale mtx num = .ok (mtx.map (fun row => row.map (· * num))) := by
  cases mtx with
  | nil => exact absurd rfl hrows
  | cons row0 rows =>
    simp only [mtx_scale]
    exact transform1_rows _ _ (fun a => vec_scale_eq a num) _

/-- Claim C11, the code at the matrix with zero rows: `operator*(matrix, double)`
sizes its result from `mtx[0].size()`, which reads row 0 of a matrix that has none. -/
theorem mtx_scale_zero_rows :
    mtx_scale ([] : List (List ℝ)) 2 = .error .undefined ∧
    ∀ k : ℝ, ¬ ∃ res, mtx_scale ([] : List (List ℝ)) k = .ok res := by
  simp [mtx_scale]

theorem zipWith_add_sub_cancel {α : Type} [AddGroup α] :
    ∀ (a b : List α), a.length = b.length →
      List.zipWith (· - ·) (List.zipWith (· + ·) a b) b = a
  | [], _, _ => by simp
  | _ :: _, [], h => by simp at h
  | x :: xs, y :: ys, h => by
    have ih := zipWith_add_sub_cancel xs ys (by simpa using h)
    simp [ih]

/-- Claim C12. For vectors `a` and `b` of equal length (over the reals, and over every
additive group) `add(a, b)` returns, `sub` of its result and `b` returns, and the
result is `a`. -/
theorem vec_sub_undoes_vec_add {α : Type} [AddGroup α] (a b : List α)
    (hlen : a.length = b.length) :
    ∃ s, vec_add a b = .ok s ∧ vec_sub s b = .ok a ∧
      ∀ (i : Nat) x, a[i]? = some x → ∃ y z, b[i]? = some y ∧ s[i]? = some z ∧ z - y = x := by
  have hs : (List.zipWith (· + ·) a b).length = b.length := by simp [hlen]
  refine ⟨List.zipWith (· + ·) a b, vec_add_eq a b hlen, ?_, ?_⟩
  · rw [vec_sub_eq _ _ hs, zipWith_add_sub_cancel a b hlen]
  · intro i x hx
    have hi : i < a.length := (List.getElem?_eq_some_iff.1 hx).1
    have hib : i < b.length := by omega
    refine ⟨b[i], x + b[i], List.getElem?_eq_getElem hib, ?_, by simp⟩
    have hxa : a[i] = x := (List.getElem?_eq_some_iff.1 hx).2
    simp [List.getElem?_zipWith, List.getElem?_eq_getElem hi, List.getElem?_eq_getElem hib, hxa]

theorem vec_sub_undoes_vec_add_witness :
    ∃ s, vec_add [1, 2, 3] [10, 20, (30 : Int)] = .ok s ∧ vec_sub s [10, 20, 30] = .ok [1, 2, 3] := by
  obtain ⟨s, h1, h2, _⟩ := vec_sub_undoes_vec_add [1, 2, 3] [10, 20, (30 : Int)] (by decide)
  exact ⟨s, h1, h2⟩

theorem zipWith_add_comm {α : Type} [AddCommSemigroup α] :
    ∀ (a b : List α), List.zipWith (· + ·) a b = List.zipWith (· + ·) b a
  | [], [] => rfl
  | [], _ :: _ => rfl
  | _ :: _, [] => rfl
  | x :: xs, y :: ys => by
    have ih := zipWith_add_comm xs ys
    simp [ih, add_comm x y]

/-- Claim C13. For vectors `a` and `b` of equal length `add(a, b)` and `add(b, a)`
both return, and they return the same vector. -/
theorem vec_add_commutative {α : Type} [AddCommSemigroup α] (a b : List α)
    (hlen : a.length = b.length) :
    ∃ s, vec_add a b = .ok s ∧ vec_add b a = .ok s ∧ s.length = a.length ∧
      ∀ (i : Nat) x y, a[i]? = some x → b[i]? = some y → s[i]? = some (x + y) := by
  refine ⟨List.zipWith (· + ·) a b, vec_add_eq a b hlen, ?_, by simp [hlen], ?_⟩
  · rw [vec_add_eq b a hlen.symm, zipWith_add_comm]
  · intro i x y hx hy
    simp [List.getElem?_zipWith, hx, hy]

theorem vec_add_commutative_witness :
    ∃ s, vec_add [1, 2] [3, (4 : Int)] = .ok s ∧ vec_add [3, 4] [1, (2 : Int)] = .ok s := by
  obtain ⟨s, h1, h2, _⟩ := vec_add_commutative [1, 2] [3, (4 : Int)] (by decide)
  exact ⟨s, h1, h2⟩

/-- Claim C14. For every vector `v`, the empty one included, and every scalar `k`,
vector scale returns a vector of the length of `v` whose entry `i` is `v[i] * k`. -/
theorem vec_scale_contract {α : Type} [Mul α] (v : List α) (k : α) :
    ∃ res, vec_scale v k = .ok res ∧ res.length = v.length ∧
      (∀ (i : Nat) x, v[i]? = some x → res[i]? = some (x * k)) ∧
      (∀ (i : Nat), v[i]? = none → res[i]? = none) := by
  refine ⟨v.map (· * k), vec_scale_eq v k, by simp, ?_, ?_⟩
  · intro i x hx
    simp [hx]
  · intro i hi
    simp [hi]

end LinearAlgebraLaws

/-! ## Theorems: the clamp of `bce`, the Xavier bound -/

section LossLaws

theorem clamp_eq_min_max (v lo hi : ℝ) (h : lo ≤ hi) : clamp v lo hi = min (max v lo) hi := by
  unfold clamp
  by_cases h1 : v < lo
  · rw [if_pos h1, max_eq_right h1.le, min_eq_left h]
  · rw [if_neg h1, max_eq_left (not_lt.1 h1)]
    by_cases h2 : hi < v
    · rw [if_pos h2, min_eq_right h2.le]
    · rw [if_neg h2, min_eq_left (not_lt.1 h2)]

theorem clamp_range (v lo hi : ℝ) (h : lo ≤ hi) : lo ≤ clamp v lo hi ∧ clamp v lo hi ≤ hi := by
  unfold clamp
  by_cases h1 : v < lo
  · rw [if_pos h1]
    exact ⟨le_refl _, h⟩
  · rw [if_neg h1]
    by_cases h2 : hi < v
    · rw [if_pos h2]
      exact ⟨h, le_refl _⟩
    · rw [if_neg h2]
      exact ⟨not_lt.1 h1, not_lt.1 h2⟩

theorem clamp_of_range (v lo hi : ℝ) (h1 : lo ≤ v) (h2 : v ≤ hi) : clamp v lo hi = v := by
  unfold clamp
  rw [if_neg (not_lt.2 h1), if_neg (not_lt.2 h2)]

theorem EPS_le : EPS ≤ 1 - EPS := by
  unfold EPS
  norm_num

/-- Claim C15. For every target and every prediction, `bce` is the cross-entropy
formula at `p' = min (max pred 1e-12) (1 - 1e-12)`; both `p'` and `1 - p'` lie in
`[1e-12, 1 - 1e-12]`, so no logarithm is taken of zero or of a negative number, and
`bce target pred = bce target p'`. -/
theorem bce_clamps_prediction (target pred : ℝ) :
    clamp pred EPS (1 - EPS) = min (max pred 1e-12) (1 - 1e-12) ∧
    bce target pred
      = -(target * Real.log (min (max pred 1e-12) (1 - 1e-12))
          + (1 - target) * Real.log (1 - min (max pred 1e-12) (1 - 1e-12))) ∧
    1e-12 ≤ min (max pred 1e-12) (1 - 1e-12) ∧
    min (max pred 1e-12) (1 - 1e-12) ≤ 1 - 1e-12 ∧
    1e-12 ≤ 1 - min (max pred 1e-12) (1 - 1e-12) ∧
    1 - min (max pred 1e-12) (1 - 1e-12) ≤ 1 - 1e-12 ∧
    0 < min (max pred 1e-12) (1 - 1e-12) ∧ 0 < 1 - min (max pred 1e-12) (1 - 1e-12) ∧
    bce target pred = bce target (min (max pred 1e-12) (1 - 1e-12)) := by
  have hE : EPS = 1e-12 := rfl
  have hc := clamp_eq_min_max pred EPS (1 - EPS) EPS_le
  obtain ⟨h1, h2⟩ := clamp_range pred EPS (1 - EPS) EPS_le
  rw [hc] at h1 h2
  have hidem : clamp (min (max pred EPS) (1 - EPS)) EPS (1 - EPS)
      = min (max pred EPS) (1 - EPS) := clamp_of_range _ _ _ h1 h2
  have hb : bce target pred = bce target (min (max pred EPS) (1 - EPS)) := by
    unfold bce
    rw [hidem, hc]
  have hpos : (0 : ℝ) < EPS := by unfold EPS; norm_num
  rw [hE] at hc h1 h2 hb hpos
  refine ⟨hc, ?_, h1, h2, by linarith, by linarith, by linarith, by linarith, hb⟩
  unfold bce
  rw [hE, hc]

/-- Claim C16. For `fan_in + fan_out > 0` the bound is `sqrt (6 / (fan_in + fan_out))`;
`xavier_limit 2 2` is `sqrt (3 / 2)` and lies within `1e-6` of `1.224745`. -/
theorem xavier_limit_formula (fan_in fan_out : ℝ) (hpos : 0 < fan_in + fan_out) :
    xavier_limit fan_in fan_out = Real.sqrt (6 / (fan_in + fan_out)) ∧
    0 < xavier_limit fan_in fan_out ∧
    xavier_limit fan_in fan_out ^ 2 = 6 / (fan_in + fan_out) ∧
    xavier_limit 2 2 = Real.sqrt (3 / 2) ∧
    |xavier_limit 2 2 - 1.224745| ≤ 1e-6 := by
  have hq : 0 < 6 / (fan_in + fan_out) := div_pos (by norm_num) hpos
  have h22 : xavier_limit 2 2 = Real.sqrt (3 / 2) := by
    unfold xavier_limit
    norm_num
  refine ⟨rfl, Real.sqrt_pos.2 hq, Real.sq_sqrt hq.le, h22, ?_⟩
  rw [h22, abs_le]
  constructor
  · have : (1.224744 : ℝ) ≤ Real.sqrt (3 / 2) := by
      rw [Real.le_sqrt' (by norm_num)]
      norm_num
    linarith
  · have : Real.sqrt (3 / 2) ≤ (1.224746 : ℝ) := by
      rw [Real.sqrt_le_iff]
      constructor <;> norm_num
    linarith

theorem xavier_limit_formula_witness :
    xavier_limit 2 4 = Real.sqrt (6 / (2 + 4)) ∧ |xavier_limit 2 2 - 1.224745| ≤ 1e-6 := by
  obtain ⟨h1, _, _, _, h5⟩ := xavier_limit_formula 2 4 (by norm_num)
  exact ⟨h1, h5⟩

end LossLaws

/-! ## Theorems: the random generator -/

section RandomFacts

theorem init_isInitialized {E : Type} (lib : EngineLib E) (initSeed : Int) (r : Random E) :
    (Random.Init lib initSeed r).isInitialized = true := by
  unfold Random.Init
  cases h : r.isInitialized <;> simp [h]

theorem init_of_initialized {E : Type} (lib : EngineLib E) (initSeed : Int) (r : Random E)
    (h : r.isInitialized = true) : Random.Init lib initSeed r = r := by
  simp [Random.Init, h]

/-- Claim C17. For all seeds `s1` and `s2` and every state of the generator, the state
(stored seed, engine, initialised flag) after `Init(s1)` followed by `Init(s2)` is the
state after `Init(s1)` alone; from the state at program start that is the state
seeded with `s1`; and every later sequence of `Double` calls has the same outcomes
with and without the second `Init`. -/
theorem init_is_idempotent {E : Type} (lib : EngineLib E) (s1 s2 : Int) (r : Random E) :
    Random.Init lib s2 (Random.Init lib s1 r) = Random.Init lib s1 r ∧
    Random.Init lib s2 (Random.Init lib s1 (Random.start lib))
      = { seed := s1, isInitialized := true, engine := lib.seeded s1 } ∧
    ∀ requests, Random.doubles lib requests (Random.Init lib s2 (Random.Init lib s1 r))
      = Random.doubles lib requests (Random.Init lib s1 r) := by
  have h := init_of_initialized lib s2 _ (init_isInitialized lib s1 r)
  refine ⟨h, ?_, fun requests => by rw [h]⟩
  rw [init_of_initialized lib s2 _ (init_isInitialized lib s1 _)]
  simp [Random.Init, Random.start]

theorem after_isInitialized {E : Type} (lib : EngineLib E) (c : RandomCall) (r : Random E) :
    (Random.after lib c r).isInitialized = (r.isInitialized || c.isInit) := by
  cases c with
  | Init initSeed =>
    simp [Random.after, RandomCall.isInit, init_isInitialized]
  | Double min max =>
    cases h : r.isInitialized <;> simp [Random.after, RandomCall.isInit, Random.Double, h]

theorem after_all_isInitialized {E : Type} (lib : EngineLib E) :
    ∀ (calls : List RandomCall) (r : Random E),
      (Random.after_all lib calls r).isInitialized = (r.isInitialized || calls.any RandomCall.isInit)
  | [], r => by simp [Random.after_all]
  | c :: calls, r => by
    have ih := after_all_isInitialized lib calls (Random.after lib c r)
    simp only [Random.after_all, List.foldl_cons] at ih ⊢
    rw [ih, after_isInitialized, List.any_cons, Bool.or_assoc]

/-- Claim C18. After any sequence of calls made from the state at program start,
`Double(min, max)` throws `logic_error` exactly when no `Init` is among the calls made
before it, it throws nothing else, and the throwing call leaves the state as it was:
not initialised. -/
theorem double_requires_init {E : Type} (lib : EngineLib E) (calls : List RandomCall)
    (min max : ℝ) :
    (Random.Double lib min max (Random.after_all lib calls (Random.start lib))
        = .error .logic_error ↔ calls.any RandomCall.isInit = false) ∧
    ((∃ e, Random.Double lib min max (Random.after_all lib calls (Random.start lib))
        = .error e) ↔ calls.any RandomCall.isInit = false) ∧
    (calls.any RandomCall.isInit = false →
      Random.after lib (.Double min max) (Random.after_all lib calls (Random.start lib))
        = Random.after_all lib calls (Random.start lib) ∧
      (Random.after_all lib calls (Random.start lib)).isInitialized = false) ∧
    (calls.any RandomCall.isInit = true →
      ∃ x r1, Random.Double lib min max (Random.after_all lib calls (Random.start lib))
        = .ok (x, r1)) := by
  have hinit := after_all_isInitialized lib calls (Random.start lib)
  simp only [Random.start, Bool.false_or] at hinit
  simp only [Random.start]
  cases hany : calls.any RandomCall.isInit
  · rw [hany] at hinit
    simp [Random.Double, Random.after, hinit]
  · rw [hany] at hinit
    simp [Random.Double, Random.after, hinit]

end RandomFacts

/-! ## Theorems: the shapes are kept by an epoch -/

section ShapeFacts

theorem fresh_accumulators_eq (h : Nat) :
    fresh_accumulators h = Params.zero.toAccumulators h 0 := by
  simp [Params.toAccumulators, Params.zero, fresh_accumulators, replicate_eq_tab]

theorem sample_body_zero_interval (h epoch : Nat) (p a : Params) (loss : ℝ) (n : Nat)
    (hn : n < 4) :
    sample_body (p.toNetwork h) h epoch 0 n (a.toAccumulators h loss)
      = .error .division_by_zero := by
  obtain ⟨hb, ht⟩ := at_index_batch n hn
  simp only [sample_body, hb, ht, bind, Except.bind, pure, Except.pure, forward_pass_closed,
    backward_closed]
  have hacc : ({ a.toAccumulators h loss with
      total_loss := (a.toAccumulators h loss).total_loss
        + (forward_of h p (sample_input n) (sample_target n)).loss } : Accumulators)
      = a.toAccumulators h (loss + sample_loss h p (sample_input n) (sample_target n)) := rfl
  rw [hacc, accumulate_loop_closed]
  simp [print_due]

theorem train_epoch_zero_interval (learning_rate : ℝ) (h epoch : Nat) (p : Params) :
    train_epoch learning_rate h epoch 0 (p.toNetwork h) = .error .division_by_zero := by
  have h0 := sample_body_zero_interval h epoch p Params.zero 0 0 (by norm_num)
  rw [← fresh_accumulators_eq] at h0
  simp [train_epoch, batch, for_loop, h0, bind, Except.bind]

theorem train_zero_interval (learning_rate : ℝ) (h : Nat) (p : Params) (epochs : Nat) :
    train learning_rate h 0 (epochs + 1) (p.toNetwork h) = .error .division_by_zero := by
  simp [train, for_loop, epoch_body, training_start, train_epoch_zero_interval, bind,
    Except.bind]

/-- Claim C20. For every hidden size `h`, zero included, and parameters of the shapes
`h` x 2, `h`, 1 x `h`, 1: one epoch never ends in a dimension mismatch
(`invalid_argument`) nor in an access outside a container; it returns whenever the
display interval is not zero, and the parameters it returns have the same shapes. The
same holds for the whole epoch loop, so the shapes are an invariant of training. -/
theorem epoch_keeps_shapes (learning_rate : ℝ) (h epoch print_frequency : Nat)
    (net : Network) (hs : Shaped net h) :
    train_epoch learning_rate h epoch print_frequency net ≠ .error .invalid_argument ∧
    train_epoch learning_rate h epoch print_frequency net ≠ .error .undefined ∧
    (print_frequency ≠ 0 →
      ∃ net1 total_loss,
        train_epoch learning_rate h epoch print_frequency net = .ok (net1, total_loss)) ∧
    (∀ net1 total_loss,
      train_epoch learning_rate h epoch print_frequency net = .ok (net1, total_loss) →
        Shaped net1 h) ∧
    (∀ epochs,
      train learning_rate h print_frequency epochs net ≠ .error .invalid_argument ∧
      train learning_rate h print_frequency epochs net ≠ .error .undefined ∧
      (print_frequency ≠ 0 → ∃ t, train learning_rate h print_frequency epochs net = .ok t) ∧
      (∀ t, train learning_rate h print_frequency epochs net = .ok t → Shaped t.net h)) := by
  have hnet := shaped_eq_toNetwork net h hs
  generalize net.toParams = p at hnet
  subst hnet
  by_cases hpf : print_frequency = 0
  · subst hpf
    rw [train_epoch_zero_interval]
    refine ⟨by simp, by simp, fun hne => absurd rfl hne, fun _ _ hok => by simp at hok, ?_⟩
    intro epochs
    cases epochs with
    | zero =>
      have h0 : train learning_rate h 0 0 (p.toNetwork h)
          = .ok (training_start (p.toNetwork h)) := by
        simp [train, for_loop]
      rw [h0]
      refine ⟨by simp, by simp, fun hne => absurd rfl hne, ?_⟩
      intro t ht
      simp only [Except.ok.injEq] at ht
      rw [← ht]
      exact hs
    | succ n =>
      rw [train_zero_interval]
      exact ⟨by simp, by simp, fun hne => absurd rfl hne, fun _ hok => by simp at hok⟩
  · rw [train_epoch_closed learning_rate h epoch print_frequency hpf p]
    refine ⟨by simp, by simp, fun _ => ⟨_, _, rfl⟩, ?_, ?_⟩
    · intro net1 total hok
      simp only [Except.ok.injEq, Prod.mk.injEq] at hok
      rw [← hok.1]
      exact shaped_toNetwork h _
    · intro epochs
      rw [train_closed learning_rate h print_frequency hpf p epochs]
      refine ⟨by simp, by simp, fun _ => ⟨_, rfl⟩, ?_⟩
      intro t ht
      simp only [Except.ok.injEq] at ht
      rw [← ht]
      exact shaped_toNetwork h _

theorem epoch_keeps_shapes_witness :
    ∃ net1 total_loss, train_epoch (1 / 2) 2 1 100 sample_network = .ok (net1, total_loss) ∧
      Shaped net1 2 := by
  obtain ⟨_, _, h3, h4, _⟩ := epoch_keeps_shapes (1 / 2) 2 1 100 sample_network
    sample_network_shaped
  obtain ⟨net1, total, hok⟩ := h3 (by norm_num)
  exact ⟨net1, total, hok, h4 net1 total hok⟩

end ShapeFacts

/-! ## Theorems: the configuration step -/

section ConfigFacts

/-- The guard of `string_to_number`: an empty line and a line with a character that is
not a decimal digit are rejected. -/
theorem string_to_number_rejects (str : String)
    (h : str.data = [] ∨ ∃ c ∈ str.data, c.isDigit = false) :
    string_to_number str = .error .invalid_argument := by
  unfold string_to_number
  rcases h with h | ⟨c, hc, hd⟩
  · simp [h]
  · have hall : str.data.all Char.isDigit = false := by
      rw [List.all_eq_false]
      exact ⟨c, hc, by simp [hd]⟩
    simp [hall]

theorem minus_is_no_digit : ('-').isDigit = false := by decide

/-- The numbers that `string_to_number` returns lie in `[0, INT_MAX]`. -/
theorem string_to_number_range (str : String) (n : Int) (h : string_to_number str = .ok n) :
    0 ≤ n ∧ n ≤ 2147483647 := by
  unfold string_to_number at h
  split at h
  · simp at h
  · split at h
    · simp at h
    · rename_i hle
      simp only [Except.ok.injEq] at h
      rw [← h]
      constructor
      · exact Int.natCast_nonneg _
      · have : decimal_value str.data ≤ 2147483647 := Nat.le_of_not_lt hle
        exact_mod_cast this

/-- The function `string_to_double` hands on what `std::stod` read from the whole
line, of whatever sign. -/
theorem string_to_double_accepts (stod : String → StodResult) (str : String) (v : ℝ)
    (hne : str.data ≠ []) (hread : stod str = .value v str.length) :
    string_to_double stod str = .ok v := by
  simp [string_to_double, hne, hread]

theorem run_of_configure_error {E : Type} (lib : EngineLib E) (stod : String → StodResult)
    (entropy : Int) (input : ConfigInput) (e : Failure)
    (h : configure stod entropy input = .error e) :
    run lib stod entropy input = .error e := by
  simp [run, h, bind, Except.bind]

/-- Claim C19, the claim at a negative learning rate: the lines `42`, `100`, `10`,
`-0.5`, `4` pass the configuration step with `learning_rate = -0.5`. -/
theorem negative_learning_rate_is_accepted :
    configure stod_sample 0
        { seed := "42", epochs := "100", print_frequency := "10", learning_rate := "-0.5",
          hidd_neuron_count := "4" }
      = .ok { seed := 42, epochs := 100, print_frequency := 10, learning_rate := -(1 / 2),
              hidd_neuron_count := 4 } ∧
    (-(1 / 2) : ℝ) ≤ 0 := by
  have h1 : string_to_number "42" = .ok 42 := by decide
  have h2 : string_to_number "100" = .ok 100 := by decide
  have h3 : string_to_number "10" = .ok 10 := by decide
  have h4 : string_to_number "4" = .ok 4 := by decide
  have h5 : string_to_double stod_sample "-0.5" = .ok (-(1 / 2)) :=
    string_to_double_accepts stod_sample "-0.5" _ (by decide) (by
      have hlen : ("-0.5" : String).length = 4 := by decide
      simp [stod_sample, hlen])
  refine ⟨?_, by norm_num⟩
  simp [configure, h1, h2, h3, h4, h5, bind, Except.bind, pure, Except.pure]

/-- Claim C19, amended. A configuration whose epoch count or hidden-layer size is
typed with a minus sign (or is empty, or has any other character that is not a decimal
digit) leaves the configuration step with an error, and the program with it, before
the parameters are initialised and before any epoch; for the epoch count the error is
`invalid_argument`. The learning rate is not checked for its sign: with counts that are
read, a line that `std::stod` reads completely as `v` gives `learning_rate = v`. -/
theorem configure_rejects_negative_counts {E : Type} (lib : EngineLib E)
    (stod : String → StodResult) (entropy : Int) (input : ConfigInput) :
    (∀ str : String, '-' ∈ str.data → ∃ c ∈ str.data, c.isDigit = false) ∧
    ((input.epochs.data = [] ∨ ∃ c ∈ input.epochs.data, c.isDigit = false) →
      configure stod entropy input = .error .invalid_argument ∧
      run lib stod entropy input = .error .invalid_argument) ∧
    ((input.hidd_neuron_count.data = [] ∨
        ∃ c ∈ input.hidd_neuron_count.data, c.isDigit = false) →
      ∃ e, configure stod entropy input = .error e ∧ run lib stod entropy input = .error e) ∧
    (∀ (epochs print_frequency hidd_neuron_count : Int) (v : ℝ),
      string_to_number input.epochs = .ok epochs →
      string_to_number input.print_frequency = .ok print_frequency →
      string_to_number input.hidd_neuron_count = .ok hidd_neuron_count →
      input.learning_rate.data ≠ [] →
      stod input.learning_rate = .value v input.learning_rate.length →
      ∃ config, configure stod entropy input = .ok config ∧ config.learning_rate = v ∧
        (config.epochs : Int) = epochs ∧ (config.hidd_neuron_count : Int) = hidd_neuron_count) := by
  refine ⟨fun str hmem => ⟨'-', hmem, minus_is_no_digit⟩, ?_, ?_, ?_⟩
  · intro hbad
    have hrej := string_to_number_rejects input.epochs hbad
    have hc : configure stod entropy input = .error .invalid_argument := by
      simp [configure, hrej, bind, Except.bind]
    exact ⟨hc, run_of_configure_error lib stod entropy input _ hc⟩
  · intro hbad
    have hrej := string_to_number_rejects input.hidd_neuron_count hbad
    have hc : ∃ e, configure stod entropy input = .error e := by
      simp only [configure, bind, Except.bind, hrej]
      cases string_to_number input.epochs with
      | error e => exact ⟨e, rfl⟩
      | ok a =>
        cases string_to_number input.print_frequency with
        | error e => exact ⟨e, rfl⟩
        | ok b =>
          cases string_to_double stod input.learning_rate with
          | error e => exact ⟨e, rfl⟩
          | ok c => exact ⟨_, rfl⟩
    obtain ⟨e, he⟩ := hc
    exact ⟨e, he, run_of_configure_error lib stod entropy input e he⟩
  · intro epochs print_frequency hidd v h1 h2 h3 hne hread
    have h4 := string_to_double_accepts stod input.learning_rate v hne hread
    obtain ⟨e0, _⟩ := string_to_number_range _ _ h1
    obtain ⟨d0, _⟩ := string_to_number_range _ _ h3
    refine ⟨{ seed := match string_to_number input.seed with
                      | .ok n => n
                      | .error _ => entropy,
              epochs := epochs.toNat, print_frequency := print_frequency.toNat,
              learning_rate := v, hidd_neuron_count := hidd.toNat },
      by simp only [configure, h1, h2, h3, h4, bind, Except.bind, pure, Except.pure],
      rfl, ?_, ?_⟩
    · exact Int.toNat_of_nonneg e0
    · exact Int.toNat_of_nonneg d0

theorem configure_rejects_negative_counts_witness :
    configure stod_sample 0
        { seed := "42", epochs := "-5", print_frequency := "10", learning_rate := "0.5",
          hidd_neuron_count := "4" } = .error .invalid_argument ∧
    run lower_end_engine stod_sample 0
        { seed := "42", epochs := "-5", print_frequency := "10", learning_rate := "0.5",
          hidd_neuron_count := "4" } = .error .invalid_argument :=
  (configure_rejects_negative_counts lower_end_engine stod_sample 0
      { seed := "42", epochs := "-5", print_frequency := "10", learning_rate := "0.5",
        hidd_neuron_count := "4" }).2.1
    (Or.inr ⟨'-', by decide, by decide⟩)

end ConfigFacts

/-! ## Theorems: the sign of the losses -/

section LossSign

theorem accumulated_loss_nonneg (h : Nat) (p : Params) : 0 ≤ (accumulated h p 4).2 / 4 := by
  have hs : ∀ n, 0 ≤ sample_loss h p (sample_input n) (sample_target n) := by
    intro n
    obtain ⟨t0, t1⟩ := sample_target_range n
    exact (bce_with_logits_loss_bounds (output_logit h p (sample_input n))
      (sample_target n) t0 t1).1
  have a := hs 0
  have b := hs 1
  have c := hs 2
  have d := hs 3
  simp only [accumulated]
  linarith

theorem mean_loss_nonneg (learning_rate : ℝ) (h : Nat) (p : Params) (k : Nat) :
    0 ≤ mean_loss learning_rate h p k :=
  accumulated_loss_nonneg h _

theorem track_nonneg (M : Nat → ℝ) (hM : ∀ k, 0 ≤ M k) : ∀ n, 0 ≤ (track M n).1
  | 0 => by
    simp only [track]
    norm_num
  | n + 1 => by
    have ih := track_nonneg M hM n
    simp only [track]
    split
    · exact hM (n + 1)
    · exact ih

/-- Claim C21. For every logit and every target in `[0, 1]` the fused loss lies
between `0` and `|logit| + log 2`. Consequently, in a run from parameters of the
program's shapes (display interval not zero), the mean loss of every epoch is not
negative, and neither is `best_loss` after any number of epochs. -/
theorem fused_loss_bounds_and_sign (logit target : ℝ) (h0 : 0 ≤ target) (h1 : target ≤ 1)
    (learning_rate : ℝ) (h print_frequency : Nat) (net : Network)
    (hpf : print_frequency ≠ 0) (hs : Shaped net h) :
    0 ≤ bce_with_logits_loss logit target ∧
    bce_with_logits_loss logit target ≤ |logit| + Real.log 2 ∧
    (∀ n, n < 4 → ∃ x t, batch[n]? = some x ∧ batch_answ[n]? = some t ∧ 0 ≤ t ∧ t ≤ 1) ∧
    (∀ k, 1 ≤ k →
      ∃ m, epoch_mean_loss learning_rate h print_frequency net k = .ok m ∧ 0 ≤ m) ∧
    (∀ N, ∃ t, train learning_rate h print_frequency N net = .ok t ∧ 0 ≤ t.best_loss ∧
      (1 ≤ t.best_loss_epoch →
        epoch_mean_loss learning_rate h print_frequency net t.best_loss_epoch
          = .ok t.best_loss)) := by
  obtain ⟨b0, b1⟩ := bce_with_logits_loss_bounds logit target h0 h1
  have hnet := shaped_eq_toNetwork net h hs
  generalize net.toParams = p at hnet
  subst hnet
  refine ⟨b0, b1, ?_, ?_, ?_⟩
  · intro n hn
    interval_cases n <;> simp [batch, batch_answ]
  · intro k _
    exact ⟨_, epoch_mean_loss_closed learning_rate h print_frequency hpf p k,
      mean_loss_nonneg learning_rate h p k⟩
  · intro N
    refine ⟨_, train_closed learning_rate h print_frequency hpf p N,
      track_nonneg _ (mean_loss_nonneg learning_rate h p) N, ?_⟩
    intro hset
    rw [epoch_mean_loss_closed learning_rate h print_frequency hpf p]
    congr 1
    have key : ∀ n, 1 ≤ (track (mean_loss learning_rate h p) n).2 →
        mean_loss learning_rate h p (track (mean_loss learning_rate h p) n).2
          = (track (mean_loss learning_rate h p) n).1 := by
      intro n
      induction n with
      | zero => intro h1; simp [track] at h1
      | succ n ih =>
        intro h1
        simp only [track] at h1 ⊢
        split
        · rfl
        · rename_i hc
          rw [if_neg hc] at h1
          exact ih h1
    exact key N hset

theorem fused_loss_bounds_and_sign_witness :
    0 ≤ bce_with_logits_loss 3 1 ∧ bce_with_logits_loss 3 1 ≤ |(3 : ℝ)| + Real.log 2 ∧
    ∃ t, train (1 / 2) 2 100 5 sample_network = .ok t ∧ 0 ≤ t.best_loss := by
  obtain ⟨h1, h2, _, _, h5⟩ := fused_loss_bounds_and_sign 3 1 (by norm_num) (by norm_num)
    (1 / 2) 2 100 sample_network (by norm_num) sample_network_shaped
  obtain ⟨t, ht, hb, _⟩ := h5 5
  exact ⟨h1, h2, t, ht, hb⟩

end LossSign

/-! ## Theorems: the display interval -/

section IntervalFacts

theorem init_network_returns_shaped {E : Type} (lib : EngineLib E) (h : Nat) (r : Random E)
    (hdraw : ∀ e lo hi, lo ≤ hi → lo ≤ (lib.draw e lo hi).1 ∧ (lib.draw e lo hi).1 ≤ hi)
    (hr : r.isInitialized = true) :
    ∃ net r1, init_network lib h r = .ok (net, r1) ∧ Shaped net h := by
  have hL : -xavier_limit (input_neuron_count : ℝ) (h : ℝ)
      ≤ xavier_limit (input_neuron_count : ℝ) (h : ℝ) := by
    have : 0 ≤ xavier_limit (input_neuron_count : ℝ) (h : ℝ) := Real.sqrt_nonneg _
    linarith
  have hd := fun e => hdraw e _ _ hL
  obtain ⟨wh, r1, hwh, hr1, hwhlen, hwhall⟩ :=
    draw_matrix_spec lib _ _ hd h input_neuron_count r hr
  obtain ⟨wo, r2, hwo, _, hwolen, hwoall⟩ :=
    draw_matrix_spec lib _ _ hd output_neuron_count h r1 hr1
  refine ⟨{ weight_hidd := wh, bias_hidd := List.replicate h 0, weight_outp := wo,
            bias_outp := List.replicate output_neuron_count 0 }, r2, ?_, ?_⟩
  · simp only [init_network, hwh, hwo]
  · exact ⟨hwhlen, fun row hrow => (hwhall row hrow).1, List.length_replicate _ _, hwolen,
      fun row hrow => (hwoall row hrow).1, List.length_replicate _ _⟩

/-- An accepted display interval other than zero: the print condition is evaluated. -/
theorem print_due_of_accepted (str : String) (n : Int) (epoch : Nat)
    (hok : string_to_number str = .ok n) (hn : n ≠ 0) :
    ∃ b, print_due epoch n.toNat = .ok b := by
  obtain ⟨h0, _⟩ := string_to_number_range str n hok
  have : n.toNat ≠ 0 := by omega
  exact ⟨_, print_due_returns epoch n.toNat this⟩

/-- Claim C22, the code at the display interval `0`: `string_to_number` accepts the
line `0`, the print condition of epoch 1 takes a remainder by zero, and the program
run on the lines `42`, `1`, `0`, `0.5`, `4` ends there, in its first epoch. -/
theorem zero_display_interval_divides_by_zero :
    string_to_number "0" = .ok 0 ∧
    print_due 1 (0 : Int).toNat = .error .division_by_zero ∧
    configure stod_sample 0
        { seed := "42", epochs := "1", print_frequency := "0", learning_rate := "0.5",
          hidd_neuron_count := "4" }
      = .ok { seed := 42, epochs := 1, print_frequency := 0, learning_rate := 1 / 2,
              hidd_neuron_count := 4 } ∧
    run lower_end_engine stod_sample 0
        { seed := "42", epochs := "1", print_frequency := "0", learning_rate := "0.5",
          hidd_neuron_count := "4" }
      = .error .division_by_zero := by
  have h0 : string_to_number "0" = .ok 0 := by decide
  have h1 : string_to_number "42" = .ok 42 := by decide
  have h2 : string_to_number "1" = .ok 1 := by decide
  have h4 : string_to_number "4" = .ok 4 := by decide
  have h5 : string_to_double stod_sample "0.5" = .ok (1 / 2) :=
    string_to_double_accepts stod_sample "0.5" _ (by decide) (by
      have hlen : ("0.5" : String).length = 3 := by decide
      simp [stod_sample, hlen])
  have hcfg : configure stod_sample 0
        { seed := "42", epochs := "1", print_frequency := "0", learning_rate := "0.5",
          hidd_neuron_count := "4" }
      = .ok { seed := 42, epochs := 1, print_frequency := 0, learning_rate := 1 / 2,
              hidd_neuron_count := 4 } := by
    simp [configure, h0, h1, h2, h4, h5, bind, Except.bind, pure, Except.pure]
  refine ⟨h0, by simp [print_due], hcfg, ?_⟩
  obtain ⟨net, r1, hinit, hshape⟩ := init_network_returns_shaped lower_end_engine 4
    (Random.Init lower_end_engine 42 (Random.start lower_end_engine))
    (fun _ lo hi hle => ⟨le_refl lo, hle⟩) rfl
  have hnet := shaped_eq_toNetwork net 4 hshape
  have htrain : train (1 / 2) 4 0 1 net = .error .division_by_zero := by
    rw [hnet]
    exact train_zero_interval (1 / 2) 4 _ 0
  simp only [run, hcfg, bind, Except.bind, hinit, htrain]

end IntervalFacts

end SimpleNeuralNetwork
